import Mathlib

/-!
Verification development for the LLM Universal Exporter's
extraction-and-normalization pipeline.

The JavaScript source is shallowly embedded: JS strings become `String`
(operated on through their `List Char` data), JS numbers used as counts
become `Nat`, JS `null`/`undefined`-able object fields become `Option` or
use `""`/`0` as the falsy default exactly where the source only ever
distinguishes truthiness, and JS exceptions become an explicit error
component in the result.  Every definition is translated from the
repository's source files (`ExportInterface` in the content-script UI
module, the ChatGPT extractor, and the Claude extractor); comments note
the source symbol each definition embeds.
-/

/- ## JS string primitives

The source manipulates strings with `trim()`, `slice`, `split(/\s+/)`,
`toLowerCase()` and friends.  These are modelled over `List Char`.
`jsWs` models the JS `\s` class / `trim()` whitespace set (restricted to
its common members; the source never depends on the exotic ones). -/

def jsWs (c : Char) : Bool :=
  c = ' ' ∨ c = '\t' ∨ c = '\n' ∨ c = '\r' ∨ c = '\x0b' ∨ c = '\x0c' ∨ c = ' '

/-- JS `String.prototype.trim`: drop leading and trailing whitespace. -/
def trimChars (cs : List Char) : List Char :=
  ((cs.dropWhile jsWs).reverse.dropWhile jsWs).reverse

def jsTrim (s : String) : String := ⟨trimChars s.data⟩

/-- JS `String.prototype.slice(0, n)` (code-unit prefix). -/
def strTake (n : Nat) (s : String) : String := ⟨s.data.take n⟩

/-- JS `String.prototype.toLowerCase` for the ASCII range. -/
def jsLowerChar (c : Char) : Char :=
  if 'A' ≤ c ∧ c ≤ 'Z' then Char.ofNat (c.toNat + 32) else c

def jsLower (s : String) : String := ⟨s.data.map jsLowerChar⟩

/-- Split a character list at every character satisfying `p`
(one split per separator character, like Lean's `String.split`). -/
def splitCharsAt (p : Char → Bool) (cs : List Char) : List (List Char) :=
  match cs with
  | [] => [[]]
  | c :: rest =>
    let r := splitCharsAt p rest
    if p c then [] :: r
    else match r with
      | [] => [[c]]
      | g :: gs => (c :: g) :: gs

/-- JS `s.split(/\s+/).filter(Boolean).length`: the number of
whitespace-separated words.  Splitting at each whitespace character and
dropping empty pieces counts exactly the maximal non-whitespace runs,
which is what the source's regex split computes. -/
def countWordsJS (s : String) : Nat :=
  ((splitCharsAt jsWs s.data).filter (fun g => ¬ g.isEmpty)).length

/-- JS `s.split(/\s+/).length` (empty pieces kept at the two ends, as the
regex split produces): number of word runs plus one for a leading and one
for a trailing whitespace run. -/
def splitWsRunsLen (s : String) : Nat :=
  match s.data with
  | [] => 1
  | cs =>
    ((splitCharsAt jsWs cs).filter (fun g => ¬ g.isEmpty)).length
      + (if jsWs (cs.headI) then 1 else 0)
      + (if jsWs (cs.getLastD 'x') then 1 else 0)

/-- JS `s.split(sep)` for a single-character separator. -/
def splitOnChar (sep : Char) (s : String) : List String :=
  (splitCharsAt (fun c => c = sep) s.data).map (fun g => (⟨g⟩ : String))

/-- Does `n` occur at the start of `h`? (JS `startsWith`.) -/
def startsWithSeq : List Char → List Char → Bool
  | [], _ => true
  | _ :: _, [] => false
  | a :: n, b :: h => a = b && startsWithSeq n h

/-- Does `n` occur anywhere inside `h`? (JS `includes`.) -/
def containsSeq (n : List Char) : List Char → Bool
  | [] => startsWithSeq n []
  | h :: rest => startsWithSeq n (h :: rest) || containsSeq n rest

def strContains (h n : String) : Bool := containsSeq n.data h.data

/-- Number of positions at which `n` occurs in `h`.  For needles that
cannot overlap themselves (such as the `[REDACTED_` marker, whose first
character appears nowhere else in it) this equals the JS global-regex
match count. -/
def countSeq (n : List Char) : List Char → Nat
  | [] => 0
  | h :: rest => (if startsWithSeq n (h :: rest) then 1 else 0) + countSeq n rest

def strCount (h n : String) : Nat := countSeq n.data h.data

/- ## Data model

Typed shapes of the loosely-structured JS objects.  String fields use
`""` where the source only distinguishes truthiness of a possibly-missing
string; `Option` is used where the source distinguishes `null`/absent
from a present value (e.g. `structuredData`). -/

/-- An entry of `references.links`: `{url, title, domain}`. -/
structure RefLink where
  url : String
  title : String
  domain : String
deriving DecidableEq, Repr

/-- An entry of `references.attachments` / `references.documents`:
`{name, url, type, sizeLabel}`. -/
structure RefAttachment where
  name : String
  url : String
  ty : String
  sizeLabel : String
deriving DecidableEq, Repr

/-- An entry of `references.citations`: `{text, url}`. -/
structure RefCitation where
  text : String
  url : String
deriving DecidableEq, Repr

/-- The four parallel reference lists carried by messages and by the
aggregated reference index. -/
structure ReferenceSet where
  links : List RefLink
  attachments : List RefAttachment
  documents : List RefAttachment
  citations : List RefCitation
deriving DecidableEq, Repr

def ReferenceSet.empty : ReferenceSet := ⟨[], [], [], []⟩

/-- A trace/thinking block.  `structuredData` is the type-specific parsed
payload, modelled opaquely (normalization passes it through unchanged). -/
structure Block where
  id : String
  ty : String
  summary : String
  content : String
  html : String
  richHtml : String
  wordCount : Nat
  characterCount : Nat
  structuredData : Option String
deriving DecidableEq, Repr

structure Message where
  id : String
  author : String
  content : String
  html : String
  timestamp : String
  wordCount : Nat
  characterCount : Nat
  thinkingBlocks : List Block
  references : ReferenceSet
deriving DecidableEq, Repr

/-- An entry of `metadata.uploadedDocuments`. -/
structure UploadedDoc where
  messageId : String
  author : String
  name : String
  ty : String
  url : String
  sizeLabel : String
deriving DecidableEq, Repr

/-- The aggregated reference index: a `ReferenceSet` plus its `total`. -/
structure ReferenceIndex where
  links : List RefLink
  attachments : List RefAttachment
  documents : List RefAttachment
  citations : List RefCitation
  total : Nat
deriving DecidableEq, Repr

structure Metadata where
  platform : String
  exportDate : String
  scope : String
  messageCount : Nat
  thinkingBlockCount : Nat
  totalWordCount : Nat
  hasThinkingBlocks : Bool
  blockTypeBreakdown : List (String × Nat)
  referenceIndex : ReferenceIndex
  referenceCount : Nat
  linkCount : Nat
  attachmentCount : Nat
  citationCount : Nat
  uploadedDocuments : List UploadedDoc
  uploadedDocumentCount : Nat
deriving DecidableEq, Repr

/-- The canonical in-memory conversation document (`this.exportData`).
`rawHtml`, when present, is the `{original, expanded}` snapshot pair
whose components the sanitizer may null out. -/
structure ExportData where
  metadata : Metadata
  messages : List Message
  thinkingBlocks : List Block
  rawHtml : Option (Option String × Option String)
deriving DecidableEq, Repr

/- ## Signature-based deduplication

`ExportInterface.dedupeBySignature(items, signatureFn)` and the
identically-implemented `dedupeObjectsBySignature` of the export
interface module: keep the first item per signature, dropping items
whose signature is falsy (the empty string). -/

def dedupeGo (sig : α → String) (seen : List String) : List α → List α
  | [] => []
  | x :: xs =>
    if sig x = "" ∨ sig x ∈ seen then dedupeGo sig seen xs
    else x :: dedupeGo sig (sig x :: seen) xs

def dedupeBySignature (sig : α → String) (items : List α) : List α :=
  dedupeGo sig [] items

/-- `dedupeObjectsBySignature` (export-interface module) is the same
first-occurrence-per-signature filter as `dedupeBySignature`. -/
def dedupeObjectsBySignature (sig : α → String) (items : List α) : List α :=
  dedupeBySignature sig items

/-- The signatures `dedupeGo` has recorded after a pass over `xs`. -/
def collectSigs (sig : α → String) (seen : List String) : List α → List String
  | [] => seen
  | x :: xs =>
    if sig x = "" ∨ sig x ∈ seen then collectSigs sig seen xs
    else collectSigs sig (sig x :: seen) xs

/- ## Reference signatures and merging

The composite field signatures used by `mergeReferences` /
`computeReferenceIndexFromMessages`.  In the source a missing field
defaults to `''` via `|| ''`; with total `String` fields the template
strings reduce to plain concatenation. -/

def linkSig (item : RefLink) : String := item.url ++ "|" ++ item.title

def attachmentSig (item : RefAttachment) : String :=
  item.name ++ "|" ++ item.url ++ "|" ++ item.ty

def citationSig (item : RefCitation) : String := item.text ++ "|" ++ item.url

/-- `ExportInterface.normalizeReferenceSet`: coerces each of the four
lists to an array.  With typed fields the coercion is the identity. -/
def normalizeReferenceSet (refs : ReferenceSet) : ReferenceSet := refs

/-- `mergeReferences(...referenceSets)` (export-interface module):
concatenate the four sibling lists of all argument sets, then
deduplicate each by its composite signature. -/
def mergeReferences (referenceSets : List ReferenceSet) : ReferenceSet :=
  let links := referenceSets.flatMap (fun s => s.links)
  let attachments := referenceSets.flatMap (fun s => s.attachments)
  let documents := referenceSets.flatMap (fun s => s.documents)
  let citations := referenceSets.flatMap (fun s => s.citations)
  { links := dedupeObjectsBySignature linkSig links,
    attachments := dedupeObjectsBySignature attachmentSig attachments,
    documents := dedupeObjectsBySignature attachmentSig documents,
    citations := dedupeObjectsBySignature citationSig citations }

/-- Binary merge, the shape the spec's algebraic laws quantify over. -/
def merge2 (a b : ReferenceSet) : ReferenceSet := mergeReferences [a, b]

/-- A reference set whose four lists are already signature-deduplicated. -/
def ReferenceSet.Deduped (r : ReferenceSet) : Prop :=
  dedupeBySignature linkSig r.links = r.links ∧
  dedupeBySignature attachmentSig r.attachments = r.attachments ∧
  dedupeBySignature attachmentSig r.documents = r.documents ∧
  dedupeBySignature citationSig r.citations = r.citations

instance (r : ReferenceSet) : Decidable r.Deduped := by
  unfold ReferenceSet.Deduped
  infer_instance

/- ## Reference index and uploaded documents (`ExportInterface`) -/

/-- `ExportInterface.computeReferenceIndexFromMessages`: concatenate each
message's (normalized) reference lists, dedupe by signature, total up. -/
def computeReferenceIndexFromMessages (messages : List Message) : ReferenceIndex :=
  let links := dedupeBySignature linkSig
    (messages.flatMap (fun m => (normalizeReferenceSet m.references).links))
  let attachments := dedupeBySignature attachmentSig
    (messages.flatMap (fun m => (normalizeReferenceSet m.references).attachments))
  let documents := dedupeBySignature attachmentSig
    (messages.flatMap (fun m => (normalizeReferenceSet m.references).documents))
  let citations := dedupeBySignature citationSig
    (messages.flatMap (fun m => (normalizeReferenceSet m.references).citations))
  { links := links, attachments := attachments, documents := documents,
    citations := citations,
    total := links.length + attachments.length + documents.length + citations.length }

/-- JS `String(url).split('/').pop()`. -/
def lastPathComponent (url : String) : String :=
  (splitOnChar '/' url).getLastD ""

def uploadedDocSig (item : UploadedDoc) : String :=
  item.messageId ++ "|" ++ item.name ++ "|" ++ item.url ++ "|" ++ item.ty
    ++ "|" ++ item.sizeLabel

/-- The documents one user message contributes to
`computeUploadedDocumentsFromMessages`. -/
def uploadedDocsOfMessage (m : Message) : List UploadedDoc :=
  if jsLower m.author ≠ "user" then []
  else
    ((normalizeReferenceSet m.references).attachments
        ++ (normalizeReferenceSet m.references).documents).filterMap (fun item =>
      let name := jsTrim item.name
      let url := item.url
      let ty := if item.ty ≠ "" then item.ty else "file"
      if name = "" ∧ url = "" then none
      else some
        { messageId := m.id, author := "user",
          name := if name ≠ "" then name
                  else if url ≠ "" then lastPathComponent url else "document",
          ty := ty, url := url, sizeLabel := item.sizeLabel })

/-- `ExportInterface.computeUploadedDocumentsFromMessages`. -/
def computeUploadedDocumentsFromMessages (messages : List Message) : List UploadedDoc :=
  dedupeBySignature uploadedDocSig (messages.flatMap uploadedDocsOfMessage)

/- ## Export options and scoping -/

/-- Per-export options (`getExportOptions`).  `scopeStart`/`scopeEnd`
are modelled after `parseInt`: `none` for a missing or non-numeric
input field. -/
structure ExportOptions where
  scope : String
  scopeStart : Option Int
  scopeEnd : Option Int
  includeThinking : Bool
  includeHtml : Bool
  includeMetadata : Bool
  redactSensitive : Bool
deriving DecidableEq, Repr

/-- `ExportInterface.parsePositiveInt`: the parsed integer when finite
and strictly positive, otherwise `null`. -/
def parsePositiveInt (value : Option Int) : Option Int :=
  match value with
  | some n => if 0 < n then some n else none
  | none => none

/-- The `{start, end, label}` record of `resolveMessageRange`
(0-based inclusive bounds; `end` is a Lean keyword, hence `stop`). -/
structure ResolvedRange where
  start : Int
  stop : Int
  label : String
deriving DecidableEq, Repr

/-- `ExportInterface.resolveMessageRange`. -/
def resolveMessageRange (options : ExportOptions) (totalMessages : Nat) :
    ResolvedRange :=
  let scope := if options.scope ≠ "" then options.scope else "all"
  if scope = "single" then
    let index : Int :=
      match parsePositiveInt options.scopeStart with
      | some n => n
      | none => (totalMessages : Int)
    let oneBased : Int := min (totalMessages : Int) (max 1 index)
    ⟨oneBased - 1, oneBased - 1, "message-" ++ toString oneBased⟩
  else if scope = "range" then
    let start : Int :=
      match parsePositiveInt options.scopeStart with
      | some n => n
      | none => 1
    let stop : Int :=
      match parsePositiveInt options.scopeEnd with
      | some n => n
      | none => (totalMessages : Int)
    let clampedStart := min (totalMessages : Int) (max 1 start)
    let clampedEnd := min (totalMessages : Int) (max clampedStart stop)
    ⟨clampedStart - 1, clampedEnd - 1,
      "range-" ++ toString clampedStart ++ "-" ++ toString clampedEnd⟩
  else ⟨0, (totalMessages : Int) - 1, "all"⟩

/-- JS `Array.prototype.slice(begin, end)` index resolution. -/
def jsSliceIdx (len : Nat) (i : Int) : Nat :=
  if i < 0 then ((len : Int) + i).toNat else min i.toNat len

def jsSlice (xs : List α) (s e : Int) : List α :=
  (xs.take (jsSliceIdx xs.length e)).drop (jsSliceIdx xs.length s)

/-- JS object-insertion-order tally update:
`acc[type] = (acc[type] || 0) + 1`. -/
def bumpCount (acc : List (String × Nat)) (t : String) : List (String × Nat) :=
  match acc with
  | [] => [(t, 1)]
  | (k, v) :: rest => if k = t then (k, v + 1) :: rest else (k, v) :: bumpCount rest t

def blockTypeOf (b : Block) : String := if b.ty ≠ "" then b.ty else "thinking"

/-- The `reduce` computing a block-type tally. -/
def computeBlockTypeBreakdown (blocks : List Block) : List (String × Nat) :=
  blocks.foldl (fun acc b => bumpCount acc (blockTypeOf b)) []

/-- `ExportInterface.buildScopedExportData`: slice the message list by the
resolved range and recompute every derived metadata field from the
slice. -/
def buildScopedExportData (data : ExportData) (options : ExportOptions) :
    ExportData :=
  let totalMessages := data.messages.length
  let range := resolveMessageRange options totalMessages
  let scopedMessages := jsSlice data.messages range.start (range.stop + 1)
  let scopedThinkingBlocks := scopedMessages.flatMap (fun m => m.thinkingBlocks)
  let totalWordCount := scopedMessages.foldl (fun sum m => sum + m.wordCount) 0
  let referenceIndex := computeReferenceIndexFromMessages scopedMessages
  let uploaded := computeUploadedDocumentsFromMessages scopedMessages
  { data with
    messages := scopedMessages,
    thinkingBlocks := scopedThinkingBlocks,
    metadata := { data.metadata with
      messageCount := scopedMessages.length,
      thinkingBlockCount := scopedThinkingBlocks.length,
      totalWordCount := totalWordCount,
      scope := range.label,
      blockTypeBreakdown := computeBlockTypeBreakdown scopedThinkingBlocks,
      referenceIndex := referenceIndex,
      referenceCount := referenceIndex.total,
      linkCount := referenceIndex.links.length,
      attachmentCount := referenceIndex.attachments.length,
      citationCount := referenceIndex.citations.length,
      uploadedDocuments := uploaded,
      uploadedDocumentCount := uploaded.length } }

/- ## Normalization and validation (`normalizeAndValidateExportData`)

The source method mutates `this.exportData` in place (top-level
thinking-block rebuild, message normalization, metadata recomputation)
and only afterwards throws `'No messages found to export'` when no
message survived filtering.  The embedding separates the mutation
(`normalizePass`) from the mutate-then-maybe-throw method
(`normalizeAndValidateExportData`), whose result is the post-mutation
state paired with the raised error, if any. -/

/-- The dedup signature used by the normalization pass:
`` `${summary}|${content.slice(0, 600)}` `` over the trimmed fields. -/
def normBlockSignature (b : Block) : String :=
  jsTrim b.summary ++ "|" ++ strTake 600 (jsTrim b.content)

/-- The rebuilt top-level block object pushed by the aggregate dedup
loop (`index` is the block's position in the aggregate list). -/
def rebuildBlock (index : Nat) (b : Block) : Block :=
  let content := jsTrim b.content
  let summary := jsTrim b.summary
  let effective := if content ≠ "" then content else summary
  { id := if b.id ≠ "" then b.id else "thinking_" ++ toString index,
    ty := if b.ty ≠ "" then b.ty else "thinking",
    content := effective,
    summary := summary,
    html := b.html,
    richHtml := "",
    wordCount := if b.wordCount ≠ 0 then b.wordCount else countWordsJS effective,
    characterCount :=
      if b.characterCount ≠ 0 then b.characterCount else effective.length,
    structuredData := b.structuredData }

/-- The top-level aggregate dedup loop of `normalizeAndValidateExportData`:
skip blocks that are blank after trimming, keep the first block per
signature, rebuild the kept block. -/
def normTopBlocks (index : Nat) (seen : List String) : List Block → List Block
  | [] => []
  | b :: bs =>
    let content := jsTrim b.content
    let summary := jsTrim b.summary
    let signature := normBlockSignature b
    if content = "" ∧ summary = "" then normTopBlocks (index + 1) seen bs
    else if signature ∈ seen then normTopBlocks (index + 1) seen bs
    else rebuildBlock index b :: normTopBlocks (index + 1) (signature :: seen) bs

/-- Per-message block dedup (`seenBlocks`): same signature, original
block objects kept. -/
def dedupMessageBlocks (seen : List String) : List Block → List Block
  | [] => []
  | b :: bs =>
    let signature := normBlockSignature b
    if signature ∈ seen then dedupMessageBlocks seen bs
    else b :: dedupMessageBlocks (signature :: seen) bs

/-- Normalization of one message (the `map` body): trim the content,
filter out blank blocks, dedup the rest, recompute the falsy-guarded
derived fields, and drop the message entirely when both the content and
the block list are empty. -/
def normMessage (index : Nat) (m : Message) : Option Message :=
  let content := jsTrim m.content
  let blocks := m.thinkingBlocks.filter (fun b => jsTrim b.content ≠ "")
  let dedupedMessageBlocks := dedupMessageBlocks [] blocks
  if content = "" ∧ dedupedMessageBlocks = [] then none
  else some
    { m with
      id := if m.id ≠ "" then m.id else "msg_" ++ toString index,
      content := content,
      wordCount := if m.wordCount ≠ 0 then m.wordCount else countWordsJS content,
      characterCount :=
        if m.characterCount ≠ 0 then m.characterCount else content.length,
      references := normalizeReferenceSet m.references,
      thinkingBlocks := dedupedMessageBlocks }

/-- `map(..., index)` then `.filter(Boolean)` over the message list. -/
def normMessagesGo (index : Nat) : List Message → List Message
  | [] => []
  | m :: ms =>
    match normMessage index m with
    | none => normMessagesGo (index + 1) ms
    | some m' => m' :: normMessagesGo (index + 1) ms

/-- The in-place mutation performed by `normalizeAndValidateExportData`
before its final zero-messages check. -/
def normalizePass (d : ExportData) : ExportData :=
  let aggregate := d.thinkingBlocks ++ d.messages.flatMap (fun m => m.thinkingBlocks)
  let dedupedBlocks := normTopBlocks 0 [] aggregate
  let messages := normMessagesGo 0 d.messages
  let md := d.metadata
  let blockTypeBreakdown :=
    if md.blockTypeBreakdown = [] then computeBlockTypeBreakdown dedupedBlocks
    else md.blockTypeBreakdown
  let referenceIndex := computeReferenceIndexFromMessages messages
  let uploaded := computeUploadedDocumentsFromMessages messages
  { d with
    thinkingBlocks := dedupedBlocks,
    messages := messages,
    metadata := { md with
      messageCount := messages.length,
      thinkingBlockCount := dedupedBlocks.length,
      hasThinkingBlocks := decide (0 < dedupedBlocks.length),
      blockTypeBreakdown := blockTypeBreakdown,
      referenceIndex := referenceIndex,
      referenceCount := referenceIndex.total,
      linkCount := referenceIndex.links.length,
      attachmentCount := referenceIndex.attachments.length,
      citationCount := referenceIndex.citations.length,
      uploadedDocuments := uploaded,
      uploadedDocumentCount := uploaded.length } }

/-- `normalizeAndValidateExportData`: mutate, then throw
`'No messages found to export'` if the filtered message list is empty.
The first component is the post-mutation in-memory document (which the
throw does not roll back); the second is the raised error. -/
def normalizeAndValidateExportData (d : ExportData) : ExportData × Option String :=
  let d' := normalizePass d
  (d', if d'.messages.isEmpty then some "No messages found to export" else none)

/- ## A small backtracking regex engine

The redaction and block-classification code is written with JS regexes.
They are embedded as patterns over `List Char` with a backtracking
matcher that enumerates candidate match lengths in the JS engine's
priority order (alternatives left to right, greedy stars longest-first,
lazy stars shortest-first), which makes leftmost-match, `replace` and
global-match behaviour line up with JS. -/

inductive Pat where
  /-- empty pattern -/
  | eps
  /-- one character of a class -/
  | cls (f : Char → Bool)
  | seq (p q : Pat)
  /-- alternation, left branch preferred -/
  | alt (p q : Pat)
  /-- greedy `*` (body must consume at least one character per round) -/
  | star (p : Pat)
  /-- lazy `*?` -/
  | starL (p : Pat)
  /-- `\b` word boundary assertion -/
  | wb
  /-- `^` in multiline mode: at start or after a newline -/
  | bol
  /-- `$` (no multiline uses appear): at end of input -/
  | eos

def wordCharJS (c : Char) : Bool :=
  ('A' ≤ c ∧ c ≤ 'Z') ∨ ('a' ≤ c ∧ c ≤ 'z') ∨ ('0' ≤ c ∧ c ≤ '9') ∨ c = '_'

def boundaryOk (prev next : Option Char) : Bool :=
  let a := match prev with | some c => wordCharJS c | none => false
  let b := match next with | some c => wordCharJS c | none => false
  a ≠ b

/-- The character providing left context after consuming `k` characters
of `s` (unchanged when `k = 0`). -/
def prevAfter (prev : Option Char) (s : List Char) (k : Nat) : Option Char :=
  if k = 0 then prev else some ((s.take k).getLastD ' ')

/-- Candidate total lengths for a starred body, greedy order (more
iterations first), with the body matcher passed in and the fuel bounding
the number of iterations. -/
def starLensAux (m : Option Char → List Char → List Nat) :
    Nat → Option Char → List Char → List Nat
  | 0, _, _ => [0]
  | fuel + 1, prev, s =>
    (((m prev s).filter (fun k => 0 < k)).flatMap (fun k =>
      (starLensAux m fuel (prevAfter prev s k) (s.drop k)).map (fun c => k + c)))
      ++ [0]

/-- Lazy variant: fewer iterations first. -/
def starLensLazyAux (m : Option Char → List Char → List Nat) :
    Nat → Option Char → List Char → List Nat
  | 0, _, _ => [0]
  | fuel + 1, prev, s =>
    [0] ++ (((m prev s).filter (fun k => 0 < k)).flatMap (fun k =>
      (starLensLazyAux m fuel (prevAfter prev s k) (s.drop k)).map (fun c => k + c)))

/-- All candidate lengths of a match of `p` at the current position, in
backtracking priority order.  `prev` is the character just before the
position (`none` at the absolute start). -/
def matchLens : Pat → Option Char → List Char → List Nat
  | .eps, _, _ => [0]
  | .cls _, _, [] => []
  | .cls f, _, c :: _ => if f c then [1] else []
  | .seq p q, prev, s =>
    (matchLens p prev s).flatMap (fun k =>
      (matchLens q (prevAfter prev s k) (s.drop k)).map (fun j => k + j))
  | .alt p q, prev, s => matchLens p prev s ++ matchLens q prev s
  | .star p, prev, s => starLensAux (matchLens p) (s.length + 1) prev s
  | .starL p, prev, s => starLensLazyAux (matchLens p) (s.length + 1) prev s
  | .wb, prev, s => if boundaryOk prev s.head? then [0] else []
  | .bol, prev, _ =>
    (match prev with
     | none => [0]
     | some c => if c = '\n' then [0] else [])
  | .eos, _, s => if s.isEmpty then [0] else []

/-- Leftmost match: scan positions left to right, report `(index, len)`
of the first position with a match (`fuel` bounds the number of
positions tried after the current one; callers pass the input length,
so the scan never runs dry). -/
def findFirstFrom (p : Pat) : Nat → Option Char → List Char → Option (Nat × Nat)
  | 0, prev, s => ((matchLens p prev s).head?).map (fun k => (0, k))
  | f + 1, prev, s =>
    match (matchLens p prev s).head? with
    | some k => some (0, k)
    | none =>
      match s with
      | [] => none
      | c :: rest => (findFirstFrom p f (some c) rest).map (fun ik => (ik.1 + 1, ik.2))

def regexTest (p : Pat) (s : String) : Bool :=
  (findFirstFrom p (s.data.length + 1) none s.data).isSome

/-- First match of `p` anchored at the start (`^...` patterns used via
`.match` / `.replace` with a leading anchor). -/
def regexMatchBegin (p : Pat) (s : String) : Option Nat :=
  (matchLens p none s.data).head?

/-- JS `String.replace` with a global regex: replace every
non-overlapping leftmost match, the replacement computed from the
matched text; scanning resumes after the matched text. -/
def replaceAllFrom (p : Pat) (repl : List Char → List Char) :
    Nat → Option Char → List Char → List Char
  | 0, _, s => s
  | f + 1, prev, s =>
    match (matchLens p prev s).head? with
    | some k =>
      if k = 0 then
        repl [] ++
          (match s with
           | [] => []
           | c :: rest => c :: replaceAllFrom p repl f (some c) rest)
      else repl (s.take k) ++ replaceAllFrom p repl f (prevAfter prev s k) (s.drop k)
    | none =>
      match s with
      | [] => []
      | c :: rest => c :: replaceAllFrom p repl f (some c) rest

def regexReplaceAll (p : Pat) (repl : List Char → List Char) (s : String) : String :=
  ⟨replaceAllFrom p repl (s.data.length + 1) none s.data⟩

/-- JS `String.match` with a global regex: the list of matched texts. -/
def findAllFrom (p : Pat) : Nat → Option Char → List Char → List (List Char)
  | 0, _, _ => []
  | f + 1, prev, s =>
    match (matchLens p prev s).head? with
    | some k =>
      if k = 0 then
        match s with
        | [] => [[]]
        | c :: rest => [] :: findAllFrom p f (some c) rest
      else s.take k :: findAllFrom p f (prevAfter prev s k) (s.drop k)
    | none =>
      match s with
      | [] => []
      | c :: rest => findAllFrom p f (some c) rest

def regexMatchAll (p : Pat) (s : String) : List String :=
  (findAllFrom p (s.data.length + 1) none s.data).map (fun m => (⟨m⟩ : String))

/- ### Pattern construction helpers -/

def chP (c : Char) : Pat := .cls (fun x => x = c)

/-- Case-sensitive literal. -/
def litP (s : String) : Pat :=
  s.data.foldr (fun c acc => .seq (chP c) acc) .eps

/-- Case-insensitive literal (the `i` flag). -/
def litCI (s : String) : Pat :=
  s.data.foldr (fun c acc => .seq (.cls (fun x => jsLowerChar x = jsLowerChar c)) acc) .eps

def optP (p : Pat) : Pat := .alt p .eps

def plusP (p : Pat) : Pat := .seq p (.star p)

def lazyPlus (p : Pat) : Pat := .seq p (.starL p)

def repeatP (n : Nat) (p : Pat) : Pat :=
  match n with
  | 0 => .eps
  | n + 1 => .seq p (repeatP n p)

def atLeastP (n : Nat) (p : Pat) : Pat := .seq (repeatP n p) (.star p)

/-- Greedy `{0,n}`. -/
def atMostP (n : Nat) (p : Pat) : Pat :=
  match n with
  | 0 => .eps
  | n + 1 => optP (.seq p (atMostP n p))

def isAsciiLetter (c : Char) : Bool := ('A' ≤ c ∧ c ≤ 'Z') ∨ ('a' ≤ c ∧ c ≤ 'z')

def isAsciiDigit (c : Char) : Bool := '0' ≤ c ∧ c ≤ '9'

def digitP : Pat := .cls isAsciiDigit

def wsP : Pat := .cls jsWs

/- ## Sensitive-data redaction (`applySensitiveRedaction` and friends) -/

/-- `/\b[A-Z0-9._%+-]+@[A-Z0-9.-]+\.[A-Z]{2,}\b/gi` -/
def emailPat : Pat :=
  .seq .wb (.seq (plusP (.cls (fun c => isAsciiLetter c ∨ isAsciiDigit c ∨
      c = '.' ∨ c = '_' ∨ c = '%' ∨ c = '+' ∨ c = '-')))
    (.seq (chP '@') (.seq (plusP (.cls (fun c => isAsciiLetter c ∨ isAsciiDigit c ∨
      c = '.' ∨ c = '-')))
    (.seq (chP '.') (.seq (atLeastP 2 (.cls isAsciiLetter)) .wb)))))

/-- `/\b(?:\+?1[-.\s]?)?(?:\(?\d{3}\)?[-.\s]?){2}\d{4}\b/g` -/
def phonePat : Pat :=
  let sep : Pat := .cls (fun c => c = '-' ∨ c = '.' ∨ jsWs c)
  let grp : Pat :=
    .seq (optP (chP '(')) (.seq (repeatP 3 digitP) (.seq (optP (chP ')')) (optP sep)))
  .seq .wb (.seq (optP (.seq (optP (chP '+')) (.seq (chP '1') (optP sep))))
    (.seq (repeatP 2 grp) (.seq (repeatP 4 digitP) .wb)))

/-- `/\b(?:sk-[A-Za-z0-9]{12,}|xox[baprs]-[A-Za-z0-9-]{10,}|ghp_[A-Za-z0-9]{20,}|AIza[0-9A-Za-z-_]{20,})\b/g` -/
def tokenShapePat : Pat :=
  let alnum : Pat := .cls (fun c => isAsciiLetter c ∨ isAsciiDigit c)
  let alnumDash : Pat := .cls (fun c => isAsciiLetter c ∨ isAsciiDigit c ∨ c = '-')
  let alnumDashU : Pat := .cls (fun c => isAsciiLetter c ∨ isAsciiDigit c ∨ c = '-' ∨ c = '_')
  .seq .wb (.seq
    (.alt (.seq (litP "sk-") (atLeastP 12 alnum))
    (.alt (.seq (litP "xox") (.seq (.cls (fun c => c = 'b' ∨ c = 'a' ∨ c = 'p' ∨ c = 'r' ∨ c = 's'))
        (.seq (chP '-') (atLeastP 10 alnumDash))))
    (.alt (.seq (litP "ghp_") (atLeastP 20 alnum))
          (.seq (litP "AIza") (atLeastP 20 alnumDashU)))))
    .wb)

/-- `/\b(?:password|passwd|api[_-]?key|secret|token)\s*[:=]\s*[^\s]+/gi` -/
def credentialPat : Pat :=
  .seq .wb (.seq
    (.alt (litCI "password")
    (.alt (litCI "passwd")
    (.alt (.seq (litCI "api") (.seq (optP (.cls (fun c => c = '_' ∨ c = '-'))) (litCI "key")))
    (.alt (litCI "secret") (litCI "token")))))
    (.seq (.star wsP) (.seq (.cls (fun c => c = ':' ∨ c = '='))
      (.seq (.star wsP) (plusP (.cls (fun c => ¬ jsWs c)))))))

/-- `/\b[\w.-]+\.(pdf|doc|docx|txt|md|csv|xlsx|xls|ppt|pptx|json|xml|yaml|yml)\b/gi` -/
def fileNamePat : Pat :=
  let stem : Pat := plusP (.cls (fun c => wordCharJS c ∨ c = '.' ∨ c = '-'))
  let ext : Pat :=
    (["pdf", "doc", "docx", "txt", "md", "csv", "xlsx", "xls", "ppt", "pptx",
      "json", "xml", "yaml", "yml"].foldr (fun e acc => Pat.alt (litCI e) acc)
      (Pat.cls (fun _ => false)))
  .seq .wb (.seq stem (.seq (chP '.') (.seq ext .wb)))

/-- The `$1` of the file-name rule: the extension is the run after the
last dot of the matched text. -/
def afterLastDot (m : List Char) : List Char :=
  (splitCharsAt (fun c => c = '.') m).getLastD []

/-- `ExportInterface.applySensitiveRedaction`: the five chained
`replace` calls, in source order. -/
def applySensitiveRedaction (text : String) : String :=
  if text = "" then text
  else
    let s1 := regexReplaceAll emailPat (fun _ => "[REDACTED_EMAIL]".data) text
    let s2 := regexReplaceAll phonePat (fun _ => "[REDACTED_PHONE]".data) s1
    let s3 := regexReplaceAll tokenShapePat (fun _ => "[REDACTED_TOKEN]".data) s2
    let s4 := regexReplaceAll credentialPat (fun _ => "[REDACTED_CREDENTIAL]".data) s3
    regexReplaceAll fileNamePat
      (fun m => "[REDACTED_FILE].".data ++ afterLastDot m) s4

/-- `ExportInterface.redactFilename`: keep only a trailing
`.extension` (lowercased), replacing the stem. -/
def redactFilename (value : String) : String :=
  if value = "" then value
  else
    let t := jsTrim value
    let extPat : Pat :=
      .seq (chP '.') (.seq (plusP (.cls (fun c => isAsciiLetter c ∨ isAsciiDigit c))) .eos)
    match findFirstFrom extPat (t.data.length + 1) none t.data with
    | some (i, k) => "[REDACTED_FILE]" ++ jsLower ⟨t.data.drop i |>.take k⟩
    | none => "[REDACTED_FILE]"

/-- The browser `URL` constructor's `origin`, modelled for
`http(s)://host/...` URLs (the only reference shapes the repository
produces); anything else is treated as a parse failure. -/
def jsUrlOrigin (value : String) : Option String :=
  let tryScheme (scheme : String) : Option String :=
    if startsWithSeq scheme.data value.data then
      let rest := value.data.drop scheme.data.length
      let host := rest.takeWhile (fun c => c ≠ '/')
      if host.isEmpty then none else some (scheme ++ (⟨host⟩ : String))
    else none
  match tryScheme "https://" with
  | some o => some o
  | none => tryScheme "http://"

/-- `ExportInterface.redactUrl`. -/
def redactUrl (value : String) : String :=
  if value = "" then value
  else
    match jsUrlOrigin value with
    | some origin => origin ++ "/[REDACTED_PATH]"
    | none => applySensitiveRedaction value

/-- `ExportInterface.redactReferenceSet`. -/
def redactReferenceSet (refs : ReferenceSet) : ReferenceSet :=
  let source := normalizeReferenceSet refs
  { links := source.links.map (fun item =>
      { item with
        title := redactFilename (applySensitiveRedaction item.title),
        url := redactUrl item.url }),
    attachments := source.attachments.map (fun item =>
      { item with
        name := redactFilename (applySensitiveRedaction item.name),
        url := redactUrl item.url,
        sizeLabel := applySensitiveRedaction item.sizeLabel }),
    documents := source.documents.map (fun item =>
      { item with
        name := redactFilename (applySensitiveRedaction item.name),
        url := redactUrl item.url,
        sizeLabel := applySensitiveRedaction item.sizeLabel }),
    citations := source.citations.map (fun item =>
      { item with
        text := applySensitiveRedaction item.text,
        url := redactUrl item.url }) }

/-- Redaction of one block (used for both the per-message and the
top-level block lists). -/
def redactBlock (block : Block) : Block :=
  { block with
    content := applySensitiveRedaction block.content,
    summary := applySensitiveRedaction block.summary,
    html := applySensitiveRedaction block.html,
    richHtml := applySensitiveRedaction block.richHtml }

/-- `ExportInterface.sanitizeExportDataForOptions`: identity unless
`redactSensitive`; otherwise a deep-cloned copy with every message,
block, reference and uploaded-document field scrubbed.  The source
replaces `metadata.referenceIndex` by the redacted four-list object,
which carries no `total`; the typed embedding keeps the stale total (no
claim depends on it). -/
def sanitizeExportDataForOptions (sourceData : ExportData) (options : ExportOptions) :
    ExportData :=
  if ¬ options.redactSensitive then sourceData
  else
    let md := sourceData.metadata
    { sourceData with
      messages := sourceData.messages.map (fun message =>
        { message with
          content := applySensitiveRedaction message.content,
          html := applySensitiveRedaction message.html,
          references := redactReferenceSet message.references,
          thinkingBlocks := message.thinkingBlocks.map redactBlock }),
      thinkingBlocks := sourceData.thinkingBlocks.map redactBlock,
      metadata := { md with
        referenceIndex :=
          let r := redactReferenceSet
            ⟨md.referenceIndex.links, md.referenceIndex.attachments,
             md.referenceIndex.documents, md.referenceIndex.citations⟩
          ⟨r.links, r.attachments, r.documents, r.citations, md.referenceIndex.total⟩,
        uploadedDocuments := md.uploadedDocuments.map (fun item =>
          { item with
            name := redactFilename (applySensitiveRedaction item.name),
            url := redactUrl item.url,
            sizeLabel := applySensitiveRedaction item.sizeLabel }) },
      rawHtml := sourceData.rawHtml.map (fun rh =>
        (if options.includeHtml then some (applySensitiveRedaction (rh.1.getD "")) else none,
         if options.includeHtml then some (applySensitiveRedaction (rh.2.getD "")) else none)) }

/-- `getPreparedExportData`: scope, then sanitize. -/
def getPreparedExportData (data : ExportData) (options : ExportOptions) : ExportData :=
  sanitizeExportDataForOptions (buildScopedExportData data options) options

/- ## JSON rendering (`generateJSON` = `JSON.stringify(data, null, 2)`)

`JSON.stringify` with a 2-space indent, rendered compositionally per
structure (the document shape is fixed, so no generic JSON value type is
needed).  Rendered output is built as `List Char` so that substring
reasoning stays in list land. -/

def jEscapeChar (c : Char) : List Char :=
  if c = '"' then ['\\', '"']
  else if c = '\\' then ['\\', '\\']
  else if c = '\n' then ['\\', 'n']
  else if c = '\t' then ['\\', 't']
  else if c = '\r' then ['\\', 'r']
  else if c.toNat < 32 then
    let hexDigit (n : Nat) : Char :=
      if n < 10 then Char.ofNat ('0'.toNat + n) else Char.ofNat ('a'.toNat + n - 10)
    ['\\', 'u', '0', '0', hexDigit (c.toNat / 16), hexDigit (c.toNat % 16)]
  else [c]

def jEscape (s : String) : List Char := s.data.flatMap jEscapeChar

def jStr (s : String) : List Char := '"' :: (jEscape s ++ ['"'])

def jNum (n : Nat) : List Char := (toString n).data

def jBool (b : Bool) : List Char := if b then "true".data else "false".data

def jNull : List Char := "null".data

def jOptStr (s : Option String) : List Char :=
  match s with
  | some s => jStr s
  | none => jNull

def jIndent (n : Nat) : List Char := List.replicate n ' '

def joinSep (sep : List Char) : List (List Char) → List Char
  | [] => []
  | [x] => x
  | x :: xs => x ++ (sep ++ joinSep sep xs)

/-- A JSON array whose items are already rendered at `ind + 2`. -/
def jArr (ind : Nat) (items : List (List Char)) : List Char :=
  match items with
  | [] => "[]".data
  | _ =>
    '[' :: '\n' ::
      (joinSep (",\n".data) (items.map (fun it => jIndent (ind + 2) ++ it))
        ++ ('\n' :: (jIndent ind ++ "]".data)))

/-- A JSON object whose values are already rendered at `ind + 2`. -/
def jObj (ind : Nat) (kvs : List (String × List Char)) : List Char :=
  match kvs with
  | [] => "{}".data
  | _ =>
    '{' :: '\n' ::
      (joinSep (",\n".data)
        (kvs.map (fun kv => jIndent (ind + 2) ++ (jStr kv.1 ++ (": ".data ++ kv.2))))
        ++ ('\n' :: (jIndent ind ++ "\x7d".data)))

def refLinkJson (ind : Nat) (l : RefLink) : List Char :=
  jObj ind [("url", jStr l.url), ("title", jStr l.title), ("domain", jStr l.domain)]

def refAttachmentJson (ind : Nat) (a : RefAttachment) : List Char :=
  jObj ind [("name", jStr a.name), ("url", jStr a.url), ("type", jStr a.ty),
    ("sizeLabel", jStr a.sizeLabel)]

def refCitationJson (ind : Nat) (c : RefCitation) : List Char :=
  jObj ind [("text", jStr c.text), ("url", jStr c.url)]

def referenceSetJson (ind : Nat) (r : ReferenceSet) : List Char :=
  jObj ind
    [("links", jArr (ind + 2) (r.links.map (refLinkJson (ind + 4)))),
     ("attachments", jArr (ind + 2) (r.attachments.map (refAttachmentJson (ind + 4)))),
     ("documents", jArr (ind + 2) (r.documents.map (refAttachmentJson (ind + 4)))),
     ("citations", jArr (ind + 2) (r.citations.map (refCitationJson (ind + 4))))]

def referenceIndexJson (ind : Nat) (r : ReferenceIndex) : List Char :=
  jObj ind
    [("links", jArr (ind + 2) (r.links.map (refLinkJson (ind + 4)))),
     ("attachments", jArr (ind + 2) (r.attachments.map (refAttachmentJson (ind + 4)))),
     ("documents", jArr (ind + 2) (r.documents.map (refAttachmentJson (ind + 4)))),
     ("citations", jArr (ind + 2) (r.citations.map (refCitationJson (ind + 4)))),
     ("total", jNum r.total)]

def uploadedDocJson (ind : Nat) (u : UploadedDoc) : List Char :=
  jObj ind
    [("messageId", jStr u.messageId), ("author", jStr u.author),
     ("name", jStr u.name), ("type", jStr u.ty), ("url", jStr u.url),
     ("sizeLabel", jStr u.sizeLabel)]

def blockJson (ind : Nat) (b : Block) : List Char :=
  jObj ind
    [("id", jStr b.id), ("type", jStr b.ty), ("summary", jStr b.summary),
     ("content", jStr b.content), ("html", jStr b.html),
     ("richHtml", jStr b.richHtml), ("wordCount", jNum b.wordCount),
     ("characterCount", jNum b.characterCount),
     ("structuredData", jOptStr b.structuredData)]

/-- One message, honouring the `includeThinking`/`includeHtml` key
stripping performed by `generateJSON`. -/
def messageJson (options : ExportOptions) (ind : Nat) (m : Message) : List Char :=
  jObj ind
    ([("id", jStr m.id), ("author", jStr m.author), ("content", jStr m.content)]
      ++ (if options.includeHtml then [("html", jStr m.html)] else [])
      ++ [("timestamp", jStr m.timestamp), ("wordCount", jNum m.wordCount),
          ("characterCount", jNum m.characterCount)]
      ++ (if options.includeThinking then
            [("thinkingBlocks", jArr (ind + 2) (m.thinkingBlocks.map (blockJson (ind + 4))))]
          else [])
      ++ [("references", referenceSetJson (ind + 2) m.references)])

def breakdownJson (ind : Nat) (b : List (String × Nat)) : List Char :=
  jObj ind (b.map (fun kv => (kv.1, jNum kv.2)))

def metadataJson (ind : Nat) (md : Metadata) : List Char :=
  jObj ind
    [("platform", jStr md.platform), ("exportDate", jStr md.exportDate),
     ("scope", jStr md.scope), ("messageCount", jNum md.messageCount),
     ("thinkingBlockCount", jNum md.thinkingBlockCount),
     ("totalWordCount", jNum md.totalWordCount),
     ("hasThinkingBlocks", jBool md.hasThinkingBlocks),
     ("blockTypeBreakdown", breakdownJson (ind + 2) md.blockTypeBreakdown),
     ("referenceIndex", referenceIndexJson (ind + 2) md.referenceIndex),
     ("referenceCount", jNum md.referenceCount),
     ("linkCount", jNum md.linkCount),
     ("attachmentCount", jNum md.attachmentCount),
     ("citationCount", jNum md.citationCount),
     ("uploadedDocuments", jArr (ind + 2) (md.uploadedDocuments.map (uploadedDocJson (ind + 4)))),
     ("uploadedDocumentCount", jNum md.uploadedDocumentCount)]

/-- The trimmed metadata object emitted when `includeMetadata` is off:
`{platform, exportDate, messageCount}`. -/
def metadataJsonSlim (ind : Nat) (md : Metadata) : List Char :=
  jObj ind
    [("platform", jStr md.platform), ("exportDate", jStr md.exportDate),
     ("messageCount", jNum md.messageCount)]

def rawHtmlJson (ind : Nat) (rh : Option (Option String × Option String)) : List Char :=
  match rh with
  | none => jNull
  | some rh => jObj ind [("original", jOptStr rh.1), ("expanded", jOptStr rh.2)]

/-- `ExportInterface.generateJSON`: scope, sanitize, apply the three
include flags, stringify. -/
def generateJSON (data : ExportData) (options : ExportOptions) : String :=
  let d := getPreparedExportData data options
  let thinkingBlocks := if options.includeThinking then d.thinkingBlocks else []
  let rawHtml := if options.includeHtml then d.rawHtml else none
  ⟨jObj 0
    [("metadata",
       if options.includeMetadata then metadataJson 2 d.metadata
       else metadataJsonSlim 2 d.metadata),
     ("messages", jArr 2 (d.messages.map (messageJson options 4))),
     ("thinkingBlocks", jArr 2 (thinkingBlocks.map (blockJson 4))),
     ("rawHtml", rawHtmlJson 2 rawHtml)]⟩

/- ## Claude extractor: block-type detection and web-search parsing -/

def strEndsWith (s suffix : String) : Bool :=
  startsWithSeq suffix.data.reverse s.data.reverse

/-- Number of parts of JS `s.split(sep)` for a multi-character separator
(non-overlapping occurrences + 1), via a fuel-bounded scan. -/
def countSepOcc (sep : List Char) : Nat → List Char → Nat
  | 0, _ => 0
  | _, [] => 0
  | f + 1, c :: rest =>
    if startsWithSeq sep (c :: rest) ∧ sep ≠ [] then
      countSepOcc sep f ((c :: rest).drop sep.length) + 1
    else countSepOcc sep f rest

def splitLenOnStr (s sep : String) : Nat :=
  countSepOcc sep.data (s.data.length + 1) s.data + 1

/-- `/[\w-]+\.(com|org|net|io|ai|edu|gov|dev|app|co)\b/gi` -/
def domainTokenPat : Pat :=
  let ext :=
    (["com", "org", "net", "io", "ai", "edu", "gov", "dev", "app", "co"].foldr
      (fun e acc => Pat.alt (litCI e) acc) (Pat.cls (fun _ => false)))
  .seq (plusP (.cls (fun c => wordCharJS c ∨ c = '-'))) (.seq (chP '.') (.seq ext .wb))

/-- `ClaudeExtractor.countDomains`. -/
def countDomains (text : String) : Nat := (regexMatchAll domainTokenPat text).length

/-- `/[A-Z][a-z]+/g` (capitalized-word starts). -/
def capWordPat : Pat :=
  .seq (.cls (fun c => 'A' ≤ c ∧ c ≤ 'Z')) (plusP (.cls (fun c => 'a' ≤ c ∧ c ≤ 'z')))

/-- `ClaudeExtractor.looksLikeSearchResults`.  The float comparison
`capitals / Math.max(words, 1) > 0.5` is the exact integer comparison
`2 * capitals > Math.max(words, 1)` (the quotient of such small
integers rounds to 0.5 only when it is exactly 0.5). -/
def looksLikeSearchResults (_content summary : String) : Bool :=
  if summary = "" ∨ summary.length < 80 then false
  else
    let capitals := (regexMatchAll capWordPat summary).length
    let words := splitWsRunsLen summary
    if 2 * capitals > Nat.max words 1 ∧ words > 10 then true
    else if 2 ≤ countDomains summary then true
    else if strEndsWith summary "Done" ∧ summary.length > 100 then true
    else false

/-- The anchored action-verb alternations of the tool-call test
(`/^(ran |created |...)/i` and `/^(find |check |...)/i` applied to the
already-lowercased summary). -/
def toolVerbLead (sumLower : String) : Bool :=
  ["ran ", "created ", "viewed ", "read ", "edited ", "wrote ", "deleted ",
   "executed ", "installed ", "checked "].any
    (fun v => startsWithSeq v.data sumLower.data)

def toolVerbLead2 (sumLower : String) : Bool :=
  ["find ", "check ", "test ", "run ", "get ", "install ", "search "].any
    (fun v => startsWithSeq v.data sumLower.data)

/-- `/^\+\d+.*-\d+/` (`.` does not cross newlines). -/
def fileEditSummaryPat : Pat :=
  .seq (chP '+') (.seq (plusP digitP)
    (.seq (.star (.cls (fun c => c ≠ '\n'))) (.seq (chP '-') (plusP digitP))))

/-- `/^\+\d+-\d+/` -/
def fileEditContentPat : Pat :=
  .seq (chP '+') (.seq (plusP digitP) (.seq (chP '-') (plusP digitP)))

/-- `/\.(js|ts|py|rs|go|java|css|html|json|yaml|toml|md|jsx|tsx|vue|svelte)\b/` -/
def codeExtensionPat : Pat :=
  let ext :=
    (["js", "ts", "py", "rs", "go", "java", "css", "html", "json", "yaml",
      "toml", "md", "jsx", "tsx", "vue", "svelte"].foldr
      (fun e acc => Pat.alt (litP e) acc) (Pat.cls (fun _ => false)))
  .seq (chP '.') (.seq ext .wb)

/-- `ClaudeExtractor.detectBlockType`: the ordered first-match-wins
heuristic over (content, summary, rich HTML). -/
def detectBlockType (content summary richHtml : String) : String :=
  let lower := jsLower content
  let sumLower := jsLower summary
  let html := jsLower richHtml
  if strContains lower "searched the web" || strContains lower "search results"
      || strContains sumLower "searched"
      || looksLikeSearchResults content summary
      || (strContains html "href=" && decide (3 ≤ countDomains lower)) then
    "web_search"
  else if toolVerbLead sumLower || toolVerbLead2 sumLower
      || strContains lower "\noutput\n"
      || strContains lower "```bash" || strContains lower "```shell"
      || (strContains lower "$ " && strContains lower "\n") then
    "tool_call"
  else if strContains sumLower "prompt chain" || strContains sumLower "prompt"
      || strContains sumLower "system prompt" || strContains lower "system prompt"
      || strContains lower "instruction chain" || strContains lower "prompt chain" then
    "prompt_chain"
  else if (regexMatchBegin fileEditSummaryPat sumLower).isSome
      || (regexMatchBegin fileEditContentPat lower).isSome then
    "file_edit"
  else if regexTest codeExtensionPat sumLower
      || (strContains lower "```" && decide (splitLenOnStr lower "```" > 2)) then
    "code"
  else "thinking"

/-- A parsed search result: `{title, url}` from rich-HTML anchors or
`{title, domain}` from the text fallback. -/
structure SearchResult where
  title : String
  url : Option String
  domain : Option String
deriving DecidableEq, Repr

structure WebSearchData where
  queries : List String
  results : List SearchResult
deriving DecidableEq, Repr

/-- `/(?:^|\n)(.+?)\n\s*\d+\s+results?\b/gmi` -/
def searchQueryPat : Pat :=
  let anyNoNl : Pat := .cls (fun c => c ≠ '\n')
  .seq (.alt .bol (chP '\n'))
    (.seq (lazyPlus anyNoNl)
      (.seq (chP '\n') (.seq (.star wsP)
        (.seq (plusP digitP) (.seq (plusP wsP)
          (.seq (litCI "result") (.seq (optP (litCI "s")) .wb)))))))

/-- `/^searched\s+(the\s+web\s+)?/i` -/
def searchedLeadPat : Pat :=
  .seq (litCI "searched") (.seq (plusP wsP)
    (optP (.seq (litCI "the") (.seq (plusP wsP) (.seq (litCI "web") (plusP wsP))))))

/-- `parts[0].replace(/^searched\s+(the\s+web\s+)?/i, '')`. -/
def stripSearchedLead (line : String) : String :=
  match regexMatchBegin searchedLeadPat line with
  | some k => ⟨line.data.drop k⟩
  | none => line

/-- The anchor scan of
`/href="(https?:\/\/[^"]+)"[^>]*>([^<]*)</gi`, translated regex part by
regex part: at each position try `href="` (case-insensitively), a
`http(s)://` scheme, a non-empty run up to the closing quote, `[^>]*>`,
then the `([^<]*)<` title capture; on failure advance one character. -/
def parseHtmlLinksGo : Nat → List Char → List SearchResult
  | 0, _ => []
  | _, [] => []
  | f + 1, s@(_ :: rest) =>
    let fail := parseHtmlLinksGo f rest
    if startsWithSeq "href=\"".data (s.map jsLowerChar) then
      let afterH := s.drop 6
      let lowH := afterH.map jsLowerChar
      if startsWithSeq "https://".data lowH ∨ startsWithSeq "http://".data lowH then
        let scheme := if startsWithSeq "https://".data lowH then 8 else 7
        let url := afterH.takeWhile (fun c => c ≠ '"')
        if url.length ≤ scheme then fail
        else
          match afterH.drop url.length with
          | '"' :: tail1 =>
            let skip := tail1.takeWhile (fun c => c ≠ '>')
            match tail1.drop skip.length with
            | '>' :: tail2 =>
              let title := tail2.takeWhile (fun c => c ≠ '<')
              match tail2.drop title.length with
              | '<' :: tail3 =>
                let t := jsTrim ⟨title⟩
                if t ≠ "" ∧ url ≠ [] then
                  ⟨t, some ⟨url⟩, none⟩ :: parseHtmlLinksGo f tail3
                else parseHtmlLinksGo f tail3
              | _ => fail
            | _ => fail
          | _ => fail
      else fail
    else fail

/-- `/^[\w.-]+\.\w{2,4}$/` (whole-line domain test of the fallback). -/
def domainLinePat : Pat :=
  .seq (plusP (.cls (fun c => wordCharJS c ∨ c = '.' ∨ c = '-')))
    (.seq (chP '.') (.seq (.seq (.cls wordCharJS) (.seq (.cls wordCharJS) (atMostP 2 (.cls wordCharJS)))) .eos))

/-- The fallback loop pairing a title line with a following
domain-shaped line (the source's `for` loop advances an extra index
after each hit). -/
def fallbackResults : List String → List SearchResult
  | l1 :: l2 :: rest =>
    if (regexMatchBegin domainLinePat l2).isSome then
      ⟨l1, none, some l2⟩ :: fallbackResults rest
    else fallbackResults (l2 :: rest)
  | _ => []

/-- `ClaudeExtractor.parseWebSearchContent`. -/
def parseWebSearchContent (content richHtml : String) : WebSearchData :=
  if content = "" then ⟨[], []⟩
  else
    let queries := (regexMatchAll searchQueryPat content).filterMap (fun m =>
      let parts := splitOnChar '\n' (jsTrim m)
      match parts with
      | [] => none
      | p0 :: _ =>
        let q := jsTrim (stripSearchedLead p0)
        if q ≠ "" then some q else none)
    let htmlResults :=
      if richHtml ≠ "" then parseHtmlLinksGo (richHtml.data.length + 1) richHtml.data
      else []
    let results :=
      if htmlResults.isEmpty then
        let lines := ((splitOnChar '\n' content).map jsTrim).filter (fun l => l ≠ "")
        fallbackResults lines
      else htmlResults
    ⟨queries, results⟩

/- ## ChatGPT extractor: priority-based trace dedup
(`ChatGPTExtractor.dedupeThinkingBlocks`) -/

/-- `priority = {tool_call: 3, prompt_chain: 3, thinking: 2, trace: 1}`
with `|| 0` for anything else. -/
def tracePriority (t : String) : Nat :=
  if t = "tool_call" ∨ t = "prompt_chain" then 3
  else if t = "thinking" then 2
  else if t = "trace" then 1
  else 0

/-- `/^(Reasoning|Tool call:[^\n]*|Prompt chain)\s*\n+/i` -/
def traceLeadPat : Pat :=
  .seq (.alt (litCI "reasoning")
        (.alt (.seq (litCI "tool call:") (.star (.cls (fun c => c ≠ '\n'))))
              (litCI "prompt chain")))
    (.seq (.star wsP) (plusP (chP '\n')))

/-- `normalizedContent.replace(traceLead, '').trim()`. -/
def stripTraceLead (nc : String) : String :=
  match regexMatchBegin traceLeadPat nc with
  | some k => jsTrim ⟨nc.data.drop k⟩
  | none => jsTrim nc

/-- `normalizedContent.replace(new RegExp('^' + escapedSummary + '\\s*', 'i'), '').trim()`:
strip a case-insensitive literal occurrence of the (escaped) summary at
the start, plus following whitespace. -/
def stripSummaryLead (nc summary : String) : String :=
  if summary ≠ "" ∧ startsWithSeq (summary.data.map jsLowerChar) (nc.data.map jsLowerChar) then
    jsTrim ⟨(nc.data.drop summary.data.length).dropWhile jsWs⟩
  else jsTrim nc

/-- The normalized content used for the extractor-level dedup signature. -/
def normalizedTraceContent (b : Block) : String :=
  stripSummaryLead (stripTraceLead (jsTrim b.content)) (jsTrim b.summary)

/-- The merged/pushed object `{...existing, ...block, type, content}`:
with total fields, the spread of `block` overrides every field of
`existing`, so the result is `block` with the recomputed type and
content. -/
def traceMerged (b : Block) (ty : String) (nc : String) : Block :=
  { b with ty := ty, content := if nc ≠ "" then nc else b.content }

/-- The fold inside `dedupeThinkingBlocks`: `ded` is the output array,
`seen` maps a 500-character normalized-content signature to its index in
`ded`. -/
def dtbGo (ded : List Block) (seen : List (String × Nat)) : List Block → List Block
  | [] => ded
  | b :: bs =>
    let nc := normalizedTraceContent b
    let ty := jsTrim (if b.ty ≠ "" then b.ty else "thinking")
    let contentSignature := strTake 500 nc
    if contentSignature = "" then dtbGo ded seen bs
    else
      match seen.lookup contentSignature with
      | some idx =>
        match ded[idx]? with
        | some existing =>
          if tracePriority ty ≤ tracePriority existing.ty then dtbGo ded seen bs
          else dtbGo (ded.set idx (traceMerged b ty nc)) seen bs
        | none => dtbGo ded seen bs
      | none =>
        dtbGo (ded ++ [traceMerged b ty nc]) ((contentSignature, ded.length) :: seen) bs

/-- `ChatGPTExtractor.dedupeThinkingBlocks`. -/
def dedupeThinkingBlocks (blocks : List Block) : List Block := dtbGo [] [] blocks

/- ## Lemma library (proofs about the definitions above) -/

/- ### Basic lemmas about the string primitives -/

theorem startsWithSeq_iff (n h : List Char) :
    startsWithSeq n h = true ↔ n <+: h := by
  induction n generalizing h with
  | nil => simp [startsWithSeq, List.nil_prefix]
  | cons a n ih =>
    cases h with
    | nil =>
      simp only [startsWithSeq, Bool.false_eq_true, false_iff]
      intro hpre
      have := hpre.length_le
      simp at this
    | cons b h =>
      simp only [startsWithSeq, Bool.and_eq_true, decide_eq_true_eq, ih,
        List.cons_prefix_cons]

theorem containsSeq_iff (n h : List Char) :
    containsSeq n h = true ↔ n <:+: h := by
  induction h with
  | nil =>
    cases n with
    | nil => simp [containsSeq, startsWithSeq]
    | cons a l =>
      simp only [containsSeq, startsWithSeq, Bool.false_eq_true, false_iff]
      intro hinf
      have := hinf.length_le
      simp at this
  | cons c rest ih =>
    simp only [containsSeq, Bool.or_eq_true, startsWithSeq_iff n (c :: rest), ih]
    constructor
    · rintro (hp | hi)
      · exact hp.isInfix
      · obtain ⟨s, t, hst⟩ := hi
        exact ⟨c :: s, t, by simp [← hst]⟩
    · rintro ⟨s, t, hst⟩
      cases s with
      | nil => exact Or.inl ⟨t, by simpa using hst⟩
      | cons x s =>
        right
        have : s ++ n ++ t = rest := by
          have := congrArg List.tail hst
          simpa using this
        exact ⟨s, t, this⟩

theorem dedupeGo_append (sig : α → String) (seen : List String)
    (xs ys : List α) :
    dedupeGo sig seen (xs ++ ys)
      = dedupeGo sig seen xs ++ dedupeGo sig (collectSigs sig seen xs) ys := by
  induction xs generalizing seen with
  | nil => simp [dedupeGo, collectSigs]
  | cons x xs ih =>
    by_cases h : sig x = "" ∨ sig x ∈ seen
    · simp [dedupeGo, collectSigs, h, ih]
    · simp [dedupeGo, collectSigs, h, ih]

theorem subset_collectSigs (sig : α → String) (seen : List String)
    (xs : List α) : seen ⊆ collectSigs sig seen xs := by
  induction xs generalizing seen with
  | nil => simp [collectSigs]
  | cons x xs ih =>
    by_cases h : sig x = "" ∨ sig x ∈ seen
    · simpa [collectSigs, h] using ih seen
    · simp only [collectSigs, h, if_false]
      exact fun a ha => ih (sig x :: seen) (List.mem_cons_of_mem _ ha)

theorem mem_collectSigs (sig : α → String) (seen : List String)
    (xs : List α) (x : α) (hx : x ∈ xs) (hne : sig x ≠ "") :
    sig x ∈ collectSigs sig seen xs := by
  induction xs generalizing seen with
  | nil => cases hx
  | cons y ys ih =>
    rcases List.mem_cons.mp hx with rfl | hmem
    · by_cases h : sig x = "" ∨ sig x ∈ seen
      · rcases h with h | h
        · exact absurd h hne
        · simp only [collectSigs, h, or_true, if_true]
          exact subset_collectSigs sig seen ys h
      · simp only [collectSigs, h, if_false]
        exact subset_collectSigs sig _ ys (List.mem_cons_self _ _)
    · by_cases h : sig y = "" ∨ sig y ∈ seen
      · simp only [collectSigs, h, if_true]
        exact ih seen hmem
      · simp only [collectSigs, h, if_false]
        exact ih (sig y :: seen) hmem

theorem dedupeGo_eq_nil (sig : α → String) (seen : List String)
    (ys : List α) (h : ∀ y ∈ ys, sig y = "" ∨ sig y ∈ seen) :
    dedupeGo sig seen ys = [] := by
  induction ys with
  | nil => rfl
  | cons y ys ih =>
    have hy := h y (List.mem_cons_self _ _)
    simp only [dedupeGo, hy, if_true]
    exact ih (fun z hz => h z (List.mem_cons_of_mem _ hz))

/-- Re-running the dedup with the same starting `seen` set is a no-op. -/
theorem dedupeGo_idem (sig : α → String) (seen : List String)
    (xs : List α) :
    dedupeGo sig seen (dedupeGo sig seen xs) = dedupeGo sig seen xs := by
  induction xs generalizing seen with
  | nil => rfl
  | cons x xs ih =>
    by_cases h : sig x = "" ∨ sig x ∈ seen
    · simp only [dedupeGo, h, if_true]
      exact ih seen
    · simp only [dedupeGo, h, if_false]
      exact congrArg (fun t => x :: t) (ih (sig x :: seen))

/-- Pre-deduplicating a prefix does not change a dedup pass. -/
theorem dedupeGo_dedupe_append (sig : α → String) (seen : List String)
    (xs ys : List α) :
    dedupeGo sig seen (dedupeGo sig seen xs ++ ys)
      = dedupeGo sig seen (xs ++ ys) := by
  induction xs generalizing seen with
  | nil => simp [dedupeGo]
  | cons x xs ih =>
    by_cases h : sig x = "" ∨ sig x ∈ seen
    · simp only [dedupeGo, h, if_true]
      exact ih seen
    · simp only [dedupeGo, h, if_false, List.cons_append]
      exact congrArg (fun t => x :: t) (ih (sig x :: seen))

/-- Pre-deduplicating a suffix (with any smaller `seen` set) does not
change a dedup pass. -/
theorem dedupeGo_append_dedupe (sig : α → String) (seen inner : List String)
    (hsub : inner ⊆ seen) (ys : List α) :
    dedupeGo sig seen (dedupeGo sig inner ys) = dedupeGo sig seen ys := by
  induction ys generalizing seen inner with
  | nil => rfl
  | cons y ys ih =>
    by_cases hi : sig y = "" ∨ sig y ∈ inner
    · have ho : sig y = "" ∨ sig y ∈ seen := by
        rcases hi with hi | hi
        · exact Or.inl hi
        · exact Or.inr (hsub hi)
      simp only [dedupeGo, hi, if_true, ho]
      exact ih seen inner hsub
    · simp only [dedupeGo, hi, if_false]
      by_cases ho : sig y = "" ∨ sig y ∈ seen
      · simp only [dedupeGo, ho, if_true]
        have hsub' : (sig y :: inner) ⊆ seen := by
          intro a ha
          rcases List.mem_cons.mp ha with rfl | ha
          · rcases ho with ho | ho
            · exact absurd (Or.inl ho) hi
            · exact ho
          · exact hsub ha
        exact ih seen (sig y :: inner) hsub'
      · simp only [dedupeGo, ho, if_false]
        have hsub' : (sig y :: inner) ⊆ (sig y :: seen) := by
          intro a ha
          rcases List.mem_cons.mp ha with rfl | ha
          · exact List.mem_cons_self _ _
          · exact List.mem_cons_of_mem _ (hsub ha)
        rw [ih (sig y :: seen) (sig y :: inner) hsub']

theorem dedupeGo_append_dedupe_mid (sig : α → String) (seen : List String)
    (xs ys : List α) :
    dedupeGo sig seen (xs ++ dedupeBySignature sig ys)
      = dedupeGo sig seen (xs ++ ys) := by
  induction xs generalizing seen with
  | nil =>
    simpa [dedupeBySignature] using
      dedupeGo_append_dedupe sig seen [] (by simp) ys
  | cons x xs ih =>
    by_cases h : sig x = "" ∨ sig x ∈ seen
    · simp only [List.cons_append, dedupeGo, h, if_true]
      exact ih seen
    · simp only [List.cons_append, dedupeGo, h, if_false]
      exact congrArg (fun t => x :: t) (ih (sig x :: seen))

/- ### Trim lemmas -/

theorem dropWhile_dropWhile_self (p : α → Bool) (l : List α) :
    (l.dropWhile p).dropWhile p = l.dropWhile p := by
  induction l with
  | nil => rfl
  | cons a l ih =>
    by_cases h : p a
    · simp only [List.dropWhile_cons, h, if_true]
      exact ih
    · simp [List.dropWhile_cons, h]

/-- Dropping the trailing `p`-run. -/
def dropTrailing (p : α → Bool) (l : List α) : List α :=
  (l.reverse.dropWhile p).reverse

theorem trimChars_eq (cs : List Char) :
    trimChars cs = dropTrailing jsWs (cs.dropWhile jsWs) := rfl

theorem dropTrailing_dropTrailing (p : α → Bool) (l : List α) :
    dropTrailing p (dropTrailing p l) = dropTrailing p l := by
  unfold dropTrailing
  rw [List.reverse_reverse, dropWhile_dropWhile_self]

theorem dropTrailing_isPrefix (p : α → Bool) (l : List α) :
    dropTrailing p l <+: l := by
  have h1 : l.reverse.dropWhile p <:+ l.reverse := List.dropWhile_suffix p
  have h2 : (l.reverse.dropWhile p).reverse.reverse <:+ l.reverse := by
    rwa [List.reverse_reverse]
  exact List.reverse_suffix.mp h2

theorem dropWhile_of_dropTrailing (p : α → Bool) (l : List α)
    (h : l.dropWhile p = l) :
    (dropTrailing p l).dropWhile p = dropTrailing p l := by
  cases hd : dropTrailing p l with
  | nil => rfl
  | cons y ys =>
    obtain ⟨t, ht⟩ := dropTrailing_isPrefix p l
    rw [hd] at ht
    have hy : p y = false := by
      rcases hl : l with _ | ⟨a, l'⟩
      · rw [hl] at ht; simp at ht
      · have ha : y = a := by
          rw [hl] at ht
          simpa using congrArg List.head? ht
        subst ha
        rw [hl] at h
        by_cases hpa : p y
        · rw [List.dropWhile_cons, if_pos hpa] at h
          have := congrArg List.length h
          have hle : (l'.dropWhile p).length ≤ l'.length :=
            (List.dropWhile_suffix p).length_le
          simp at this
          omega
        · simpa using hpa
    rw [List.dropWhile_cons, hy]
    simp

theorem trimChars_idem (cs : List Char) : trimChars (trimChars cs) = trimChars cs := by
  rw [trimChars_eq, trimChars_eq cs]
  rw [dropWhile_of_dropTrailing jsWs _ (dropWhile_dropWhile_self jsWs cs)]
  exact dropTrailing_dropTrailing jsWs _

theorem jsTrim_idem (s : String) : jsTrim (jsTrim s) = jsTrim s := by
  unfold jsTrim
  exact congrArg String.mk (trimChars_idem s.data)

theorem strAppend_ne_empty_left (s t : String) (hs : s.data ≠ []) : s ++ t ≠ "" := by
  intro h
  have := congrArg String.data h
  rw [String.data_append] at this
  rcases hl : s.data with _ | _
  · exact hs hl
  · rw [hl] at this; simp at this

/- ### C9 helper laws for signature dedup -/

theorem dedupe_append_self (sig : α → String) (a : List α)
    (ha : dedupeBySignature sig a = a) :
    dedupeBySignature sig (a ++ a) = a := by
  unfold dedupeBySignature at *
  rw [dedupeGo_append, ha]
  rw [dedupeGo_eq_nil sig _ a ?_]
  · rw [List.append_nil]
  · intro y hy
    by_cases h : sig y = ""
    · exact Or.inl h
    · exact Or.inr (mem_collectSigs sig [] a y hy h)

theorem dedupe_assoc_law (sig : α → String) (a b c : List α) :
    dedupeBySignature sig (dedupeBySignature sig (a ++ b) ++ c)
      = dedupeBySignature sig (a ++ dedupeBySignature sig (b ++ c)) := by
  show dedupeGo sig [] (dedupeGo sig [] (a ++ b) ++ c)
      = dedupeGo sig [] (a ++ dedupeBySignature sig (b ++ c))
  rw [dedupeGo_dedupe_append, dedupeGo_append_dedupe_mid, List.append_assoc]

theorem merge2_fields (a b : ReferenceSet) :
    merge2 a b =
      { links := dedupeBySignature linkSig (a.links ++ b.links),
        attachments := dedupeBySignature attachmentSig (a.attachments ++ b.attachments),
        documents := dedupeBySignature attachmentSig (a.documents ++ b.documents),
        citations := dedupeBySignature citationSig (a.citations ++ b.citations) } := by
  simp [merge2, mergeReferences, dedupeObjectsBySignature]

/-- C9: `ReferenceSet` merge is associative, and idempotent on sets whose
four lists are already signature-deduplicated: `merge(merge(A,B),C) =
merge(A,merge(B,C))` and `merge(A,A) = A` (concatenation of sibling
lists followed by first-occurrence dedup by composite field
signature). -/
theorem C9_merge_assoc_idem (A B C : ReferenceSet)
    (hA : A.Deduped) (_hB : B.Deduped) (_hC : C.Deduped) :
    merge2 (merge2 A B) C = merge2 A (merge2 B C) ∧ merge2 A A = A := by
  constructor
  · rw [merge2_fields, merge2_fields A B, merge2_fields A, merge2_fields B C]
    simp only [ReferenceSet.mk.injEq]
    exact ⟨dedupe_assoc_law linkSig _ _ _, dedupe_assoc_law attachmentSig _ _ _,
      dedupe_assoc_law attachmentSig _ _ _, dedupe_assoc_law citationSig _ _ _⟩
  · obtain ⟨h1, h2, h3, h4⟩ := hA
    rw [merge2_fields]
    cases A with
    | mk links attachments documents citations =>
      simp only [ReferenceSet.mk.injEq]
      exact ⟨dedupe_append_self linkSig _ h1, dedupe_append_self attachmentSig _ h2,
        dedupe_append_self attachmentSig _ h3, dedupe_append_self citationSig _ h4⟩

/-- Witness for C9 at concrete deduplicated reference sets. -/
theorem C9_witness :
    let A : ReferenceSet := ⟨[⟨"https://a.example", "A", "a.example"⟩], [], [], []⟩
    let B : ReferenceSet :=
      ⟨[⟨"https://a.example", "A", "a.example"⟩, ⟨"https://b.example", "B", "b.example"⟩],
       [⟨"f.pdf", "https://b.example/f.pdf", "pdf", ""⟩], [], []⟩
    let C : ReferenceSet := ⟨[], [], [], [⟨"cite", "https://c.example"⟩]⟩
    A.Deduped ∧ B.Deduped ∧ C.Deduped ∧
      (merge2 (merge2 A B) C = merge2 A (merge2 B C) ∧ merge2 A A = A) := by
  intro A B C
  refine ⟨by decide, by decide, by decide, ?_⟩
  exact C9_merge_assoc_idem A B C (by decide) (by decide) (by decide)

/- ### C4: scoping recomputes derived metadata from the slice -/

/-- C4: a scoped document's metadata is recomputed against only the
sliced message list (counts, reference index, uploaded documents), and
on a 6-message document scoped with `range(2,4)` the scoped
`messageCount` is 3 and the scoped `referenceIndex` holds exactly the
deduplicated references of messages 2–4. -/
theorem C4_scoping_recomputes :
    (∀ (d : ExportData) (o : ExportOptions),
      let sc := buildScopedExportData d o
      sc.metadata.messageCount = sc.messages.length ∧
      sc.metadata.thinkingBlockCount
          = (sc.messages.flatMap (fun m => m.thinkingBlocks)).length ∧
      sc.metadata.totalWordCount
          = sc.messages.foldl (fun sum m => sum + m.wordCount) 0 ∧
      sc.metadata.referenceIndex = computeReferenceIndexFromMessages sc.messages ∧
      sc.metadata.referenceCount
          = (computeReferenceIndexFromMessages sc.messages).total ∧
      sc.metadata.linkCount
          = (computeReferenceIndexFromMessages sc.messages).links.length ∧
      sc.metadata.attachmentCount
          = (computeReferenceIndexFromMessages sc.messages).attachments.length ∧
      sc.metadata.citationCount
          = (computeReferenceIndexFromMessages sc.messages).citations.length ∧
      sc.metadata.uploadedDocuments
          = computeUploadedDocumentsFromMessages sc.messages ∧
      sc.metadata.uploadedDocumentCount
          = (computeUploadedDocumentsFromMessages sc.messages).length)
    ∧ (let mkMsg : Nat → Message := fun i =>
        ⟨"m" ++ toString i, "user", "msg " ++ toString i, "", "", 2, 5, [],
         ⟨[⟨"https://ref" ++ toString i ++ ".example", "R" ++ toString i, ""⟩], [], [], []⟩⟩
       let d6 : ExportData :=
        ⟨⟨"claude", "2025-01-01", "all", 6, 0, 0, false, [], ⟨[], [], [], [], 0⟩,
          0, 0, 0, 0, [], 0⟩,
         [mkMsg 1, mkMsg 2, mkMsg 3, mkMsg 4, mkMsg 5, mkMsg 6], [], none⟩
       let o24 : ExportOptions := ⟨"range", some 2, some 4, true, true, true, false⟩
       let sc := buildScopedExportData d6 o24
       sc.metadata.messageCount = 3 ∧
       sc.messages.map (fun m => m.id) = ["m2", "m3", "m4"] ∧
       sc.metadata.referenceIndex.links.map (fun l => l.url)
         = ["https://ref2.example", "https://ref3.example", "https://ref4.example"] ∧
       sc.metadata.referenceIndex
         = computeReferenceIndexFromMessages [mkMsg 2, mkMsg 3, mkMsg 4]) := by
  constructor
  · exact fun d o => ⟨rfl, rfl, rfl, rfl, rfl, rfl, rfl, rfl, rfl, rfl⟩
  · decide

/- ### C5: zero surviving messages raise the validation error -/

theorem normMessage_eq_none_iff (idx : Nat) (m : Message) :
    normMessage idx m = none ↔
      (jsTrim m.content = "" ∧
        dedupMessageBlocks [] (m.thinkingBlocks.filter (fun b => jsTrim b.content ≠ "")) = []) := by
  unfold normMessage
  by_cases h : jsTrim m.content = "" ∧
      dedupMessageBlocks [] (m.thinkingBlocks.filter (fun b => jsTrim b.content ≠ "")) = []
  · simp [h]
  · simp [h]

theorem normMessagesGo_eq_nil_iff (idx : Nat) (ms : List Message) :
    normMessagesGo idx ms = [] ↔
      ∀ m ∈ ms, jsTrim m.content = "" ∧
        dedupMessageBlocks [] (m.thinkingBlocks.filter (fun b => jsTrim b.content ≠ "")) = [] := by
  induction ms generalizing idx with
  | nil => simp [normMessagesGo]
  | cons m ms ih =>
    simp only [normMessagesGo]
    cases hm : normMessage idx m with
    | none =>
      have hmc := (normMessage_eq_none_iff idx m).mp hm
      simp only [ih (idx + 1), List.mem_cons]
      constructor
      · intro h x hx
        rcases hx with rfl | hx
        · exact hmc
        · exact h x hx
      · intro h x hx
        exact h x (Or.inr hx)
    | some m' =>
      simp only [List.cons_ne_nil, false_iff]
      intro h
      have := (normMessage_eq_none_iff idx m).mpr (h m (List.mem_cons_self _ _))
      rw [hm] at this
      cases this

/-- C5: the normalization-and-validation pass raises the terminal
validation error exactly when zero messages remain after the
empty-message filtering step, and returns without error whenever at
least one message survives; the filter drops precisely the messages
whose trimmed content is empty and whose deduplicated block list is
empty. -/
theorem C5_zero_messages_error (d : ExportData) :
    ((normalizeAndValidateExportData d).2 = some "No messages found to export"
        ↔ (normalizePass d).messages = [])
    ∧ ((normalizeAndValidateExportData d).2 = none
        ↔ (normalizePass d).messages ≠ [])
    ∧ ((normalizePass d).messages = [] ↔
        ∀ m ∈ d.messages, jsTrim m.content = "" ∧
          dedupMessageBlocks [] (m.thinkingBlocks.filter (fun b => jsTrim b.content ≠ "")) = []) := by
  refine ⟨?_, ?_, ?_⟩
  · show (if (normalizePass d).messages.isEmpty then
        some "No messages found to export" else none) = some _ ↔ _
    rcases hm : (normalizePass d).messages with _ | ⟨x, xs⟩
    · simp
    · simp
  · show (if (normalizePass d).messages.isEmpty then
        some "No messages found to export" else none) = none ↔ _
    rcases hm : (normalizePass d).messages with _ | ⟨x, xs⟩
    · simp
    · simp
  · exact normMessagesGo_eq_nil_iff 0 d.messages

/-- Witness for C5 in both directions: a document whose only message is
blank raises the error, and one with a surviving message does not. -/
theorem C5_witness :
    let md : Metadata :=
      ⟨"claude", "2025-01-01", "all", 0, 0, 0, false, [], ⟨[], [], [], [], 0⟩,
       0, 0, 0, 0, [], 0⟩
    let blank : ExportData :=
      ⟨md, [⟨"m1", "user", "   ", "", "", 0, 0, [], ReferenceSet.empty⟩], [], none⟩
    let ok : ExportData :=
      ⟨md, [⟨"m1", "user", "hello", "", "", 0, 0, [], ReferenceSet.empty⟩], [], none⟩
    (normalizeAndValidateExportData blank).2 = some "No messages found to export"
    ∧ (normalizeAndValidateExportData ok).2 = none := by
  intro md blank ok
  constructor
  · exact (C5_zero_messages_error blank).1.mpr (by decide)
  · exact (C5_zero_messages_error ok).2.1.mpr (by decide)

/- ### C6: range-scope endpoint resolution -/

/-- C6 counterexample: the claim says `range(4,2)` auto-orders to select
messages 2 through 4; the code instead clamps the end bound up to the
start, selecting only message 4. -/
theorem C6_counterexample :
    let mkMsg : Nat → Message := fun i =>
      ⟨"m" ++ toString i, "user", "c", "", "", 0, 0, [], ReferenceSet.empty⟩
    let d6 : ExportData :=
      ⟨⟨"claude", "2025-01-01", "all", 6, 0, 0, false, [], ⟨[], [], [], [], 0⟩,
        0, 0, 0, 0, [], 0⟩,
       [mkMsg 1, mkMsg 2, mkMsg 3, mkMsg 4, mkMsg 5, mkMsg 6], [], none⟩
    let o42 : ExportOptions := ⟨"range", some 4, some 2, true, true, true, false⟩
    resolveMessageRange o42 6 = ⟨3, 3, "range-4-4"⟩
    ∧ (buildScopedExportData d6 o42).messages.map (fun m => m.id) = ["m4"]
    ∧ (buildScopedExportData d6 o42).messages.map (fun m => m.id) ≠ ["m2", "m3", "m4"] := by
  decide

theorem resolveMessageRange_range (st en : Option Int) (iT iH iM r : Bool) (tm : Nat) :
    resolveMessageRange ⟨"range", st, en, iT, iH, iM, r⟩ tm =
      (let start : Int := match parsePositiveInt st with | some n => n | none => 1
       let stop : Int := match parsePositiveInt en with | some n => n | none => (tm : Int)
       let cS : Int := min (tm : Int) (max 1 start)
       let cE : Int := min (tm : Int) (max cS stop)
       ⟨cS - 1, cE - 1, "range-" ++ toString cS ++ "-" ++ toString cE⟩) := rfl

theorem buildScoped_messages (d : ExportData) (o : ExportOptions) :
    (buildScopedExportData d o).messages
      = jsSlice d.messages (resolveMessageRange o d.messages.length).start
          ((resolveMessageRange o d.messages.length).stop + 1) := rfl

theorem jsSliceIdx_stop (len : Nat) (E : Int) (h0 : 0 ≤ E) (hle : E ≤ (len : Int)) :
    jsSliceIdx len E = E.toNat := by
  unfold jsSliceIdx
  rw [if_neg (by omega)]
  omega

theorem jsSliceIdx_start (len : Nat) (S : Int) (h0 : 0 ≤ S) (hle : S ≤ (len : Int))
    (hz : S = 0 → len = 0) :
    jsSliceIdx len (S - 1) = S.toNat - 1 := by
  unfold jsSliceIdx
  by_cases h : S - 1 < 0
  · rw [if_pos h]; omega
  · rw [if_neg h]; omega

/-- C6, amended: for positive range bounds `(start, end)` over `n`
messages, the resolved interval clamps the start into `[1, n]` and then
clamps the end **upwards to the clamped start** (`min n (max clampedStart
end)`); a reversed pair such as `range(4,2)` is not auto-ordered — it
collapses onto the single clamped start message. -/
theorem C6_range_clamps_end_up (d : ExportData) (s e S E : Int)
    (hs : 0 < s) (he : 0 < e) (iT iH iM r : Bool)
    (hS : S = min (d.messages.length : Int) (max 1 s))
    (hE : E = min (d.messages.length : Int) (max S e)) :
    resolveMessageRange ⟨"range", some s, some e, iT, iH, iM, r⟩ d.messages.length
        = ⟨S - 1, E - 1, "range-" ++ toString S ++ "-" ++ toString E⟩
    ∧ (buildScopedExportData d ⟨"range", some s, some e, iT, iH, iM, r⟩).messages
        = (d.messages.take E.toNat).drop (S.toNat - 1)
    ∧ (e < s → E = S) := by
  have hps : parsePositiveInt (some s) = some s := by
    show (if 0 < s then some s else none) = some s
    rw [if_pos hs]
  have hpe : parsePositiveInt (some e) = some e := by
    show (if 0 < e then some e else none) = some e
    rw [if_pos he]
  have hres : resolveMessageRange ⟨"range", some s, some e, iT, iH, iM, r⟩
      d.messages.length = ⟨S - 1, E - 1, "range-" ++ toString S ++ "-" ++ toString E⟩ := by
    rw [resolveMessageRange_range]
    simp only [hps, hpe]
    rw [hS, hE, hS]
  refine ⟨hres, ?_, ?_⟩
  · rw [buildScoped_messages, hres]
    show jsSlice d.messages (S - 1) (E - 1 + 1) = _
    have h1 : E - 1 + 1 = E := by omega
    rw [h1]
    unfold jsSlice
    rw [jsSliceIdx_stop d.messages.length E (by omega) (by omega),
      jsSliceIdx_start d.messages.length S (by omega) (by omega) (by omega)]
  · intro hlt
    omega

/-- Witness for C6 at `n = 3`, `start = 2`, `end = 9` (end clamped down
to 3): the scoped selection is messages 2–3. -/
theorem C6_witness :
    let mkMsg : Nat → Message := fun i =>
      ⟨"m" ++ toString i, "user", "c", "", "", 0, 0, [], ReferenceSet.empty⟩
    let d3 : ExportData :=
      ⟨⟨"claude", "2025-01-01", "all", 3, 0, 0, false, [], ⟨[], [], [], [], 0⟩,
        0, 0, 0, 0, [], 0⟩, [mkMsg 1, mkMsg 2, mkMsg 3], [], none⟩
    resolveMessageRange ⟨"range", some 2, some 9, true, true, true, false⟩
        d3.messages.length = ⟨1, 2, "range-2-3"⟩
    ∧ (buildScopedExportData d3 ⟨"range", some 2, some 9, true, true, true, false⟩).messages
        = (d3.messages.take 3).drop 1 := by
  intro mkMsg d3
  have h := C6_range_clamps_end_up d3 2 9 (min (3 : Int) (max 1 2))
    (min (3 : Int) (max (min (3 : Int) (max 1 2)) 9))
    (by decide) (by decide) true true true false (by decide) (by decide)
  refine ⟨?_, ?_⟩
  · rw [h.1]; decide
  · rw [h.2.1]; decide

/- ### C7: word/character counts are only recomputed when falsy -/

/-- C7 counterexample: a message carrying wrong extraction-time counts
(wordCount 7, characterCount 3 for content `"hello world"`) keeps them
through normalization; the recomputed-from-content values would be 2
and 11. -/
theorem C7_counterexample :
    let md : Metadata :=
      ⟨"claude", "2025-01-01", "all", 0, 0, 0, false, [], ⟨[], [], [], [], 0⟩,
       0, 0, 0, 0, [], 0⟩
    let d7 : ExportData :=
      ⟨md, [⟨"m1", "user", "hello world", "", "", 7, 3, [], ReferenceSet.empty⟩], [], none⟩
    (normalizePass d7).messages.map (fun m => m.wordCount) = [7]
    ∧ (normalizePass d7).messages.map (fun m => m.characterCount) = [3]
    ∧ countWordsJS (jsTrim "hello world") = 2
    ∧ (jsTrim "hello world").length = 11 := by
  refine ⟨by decide, by decide, by decide, by decide⟩

/-- C7, amended: normalization recomputes `wordCount`/`characterCount`
from the content only when the extraction-time value is missing or zero
(the `||` fallback); a non-zero extraction-time count is kept verbatim,
for messages and for rebuilt top-level blocks alike. -/
theorem C7_counts_recomputed_only_when_falsy (idx : Nat) (m m' : Message)
    (h : normMessage idx m = some m') :
    (m'.wordCount
        = if m.wordCount ≠ 0 then m.wordCount else countWordsJS (jsTrim m.content))
    ∧ (m'.characterCount
        = if m.characterCount ≠ 0 then m.characterCount else (jsTrim m.content).length)
    ∧ (∀ (i : Nat) (b : Block),
        (rebuildBlock i b).wordCount
          = (if b.wordCount ≠ 0 then b.wordCount
             else countWordsJS
               (if jsTrim b.content ≠ "" then jsTrim b.content else jsTrim b.summary))
        ∧ (rebuildBlock i b).characterCount
          = (if b.characterCount ≠ 0 then b.characterCount
             else (if jsTrim b.content ≠ "" then jsTrim b.content
                   else jsTrim b.summary).length)) := by
  simp only [normMessage] at h
  split at h
  · cases h
  · injection h with h
    subst h
    exact ⟨rfl, rfl, fun i b => ⟨rfl, rfl⟩⟩

/-- Witness for C7 at a message with zeroed extraction counts. -/
theorem C7_witness :
    let m : Message := ⟨"m1", "user", "hi there", "", "", 0, 0, [], ReferenceSet.empty⟩
    let m' : Message := ⟨"m1", "user", "hi there", "", "", 2, 8, [], ReferenceSet.empty⟩
    normMessage 0 m = some m'
    ∧ m'.wordCount
        = (if m.wordCount ≠ 0 then m.wordCount else countWordsJS (jsTrim m.content)) := by
  intro m m'
  have h : normMessage 0 m = some m' := by decide
  exact ⟨h, (C7_counts_recomputed_only_when_falsy 0 m m' h).1⟩

/- ### C10: the failed validation leaves the mutation in place -/

/-- C10: when `normalizeAndValidateExportData` raises its zero-messages
validation error, the in-memory document has already been replaced by
the normalization pass: the flat `thinkingBlocks` list is the
deduplicated aggregate, the message list is empty, and the metadata
counts/reference index/uploaded documents are recomputed — nothing rolls
back to the pre-normalization state. -/
theorem C10_failed_validation_keeps_mutation (d : ExportData)
    (h : (normalizeAndValidateExportData d).2.isSome = true) :
    (normalizeAndValidateExportData d).1 = normalizePass d
    ∧ (normalizeAndValidateExportData d).1.thinkingBlocks
        = normTopBlocks 0 []
            (d.thinkingBlocks ++ d.messages.flatMap (fun m => m.thinkingBlocks))
    ∧ (normalizeAndValidateExportData d).1.messages = []
    ∧ (normalizeAndValidateExportData d).1.metadata.messageCount = 0
    ∧ (normalizeAndValidateExportData d).1.metadata.thinkingBlockCount
        = (normalizeAndValidateExportData d).1.thinkingBlocks.length
    ∧ (normalizeAndValidateExportData d).1.metadata.referenceIndex
        = computeReferenceIndexFromMessages []
    ∧ (normalizeAndValidateExportData d).1.metadata.uploadedDocuments = [] := by
  have hmempty : (normalizePass d).messages = [] := by
    by_cases hemp : (normalizePass d).messages.isEmpty = true
    · exact List.isEmpty_iff.mp hemp
    · exfalso
      have hnone : (normalizeAndValidateExportData d).2 = none := by
        show (if (normalizePass d).messages.isEmpty then
            some "No messages found to export" else none) = none
        rw [if_neg hemp]
      rw [hnone] at h
      cases h
  refine ⟨rfl, rfl, hmempty, ?_, rfl, ?_, ?_⟩
  · show (normMessagesGo 0 d.messages).length = 0
    have : normMessagesGo 0 d.messages = [] := hmempty
    rw [this]
    rfl
  · show computeReferenceIndexFromMessages (normMessagesGo 0 d.messages)
        = computeReferenceIndexFromMessages []
    have : normMessagesGo 0 d.messages = [] := hmempty
    rw [this]
  · show computeUploadedDocumentsFromMessages (normMessagesGo 0 d.messages) = []
    have : normMessagesGo 0 d.messages = [] := hmempty
    rw [this]
    rfl

/-- Witness for C10: a document whose one message is blank but which
carries a thinking block; the error is raised and the post-state
differs from the input (blocks rebuilt, counts recomputed). -/
theorem C10_witness :
    let md : Metadata :=
      ⟨"claude", "2025-01-01", "all", 0, 0, 0, false, [], ⟨[], [], [], [], 0⟩,
       0, 0, 0, 0, [], 0⟩
    let b : Block := ⟨"t1", "thinking", "Sum", "Deep thought", "", "", 0, 0, none⟩
    let dbad : ExportData :=
      ⟨md, [⟨"m1", "user", "   ", "", "", 0, 0, [], ReferenceSet.empty⟩], [b], none⟩
    (normalizeAndValidateExportData dbad).2.isSome = true
    ∧ (normalizeAndValidateExportData dbad).1.messages = []
    ∧ (normalizeAndValidateExportData dbad).1 ≠ dbad
    ∧ (normalizeAndValidateExportData dbad).1.metadata.thinkingBlockCount = 1 := by
  intro md b dbad
  have h : (normalizeAndValidateExportData dbad).2.isSome = true := by decide
  exact ⟨h, (C10_failed_validation_keeps_mutation dbad h).2.2.1, by decide, by decide⟩

/- ### C8: the concrete web-search classification scenario -/

/-- C8: classifying
`"Searched the web\n3 results\ngithub.com\nstackoverflow.com"` with an
empty summary and no rich HTML yields type `web_search`; the structured
parser extracts a non-empty query list derived from the
`"Searched the web"` line (the verb is stripped, leaving `"the web"`)
and one parsed result pairing the `"3 results"` line with the
`github.com` domain line. -/
theorem C8_web_search_scenario :
    detectBlockType "Searched the web\n3 results\ngithub.com\nstackoverflow.com" "" ""
        = "web_search"
    ∧ (parseWebSearchContent
        "Searched the web\n3 results\ngithub.com\nstackoverflow.com" "").queries
        = ["the web"]
    ∧ (parseWebSearchContent
        "Searched the web\n3 results\ngithub.com\nstackoverflow.com" "").results
        = [⟨"3 results", none, some "github.com"⟩] := by
  refine ⟨by decide, by decide, by decide⟩

/- ### C2: the normalization dedup signature and collision behaviour -/

/-- C2 counterexample: in the normalization pass, (a) a `thinking` block
followed by a `tool_call` block with identical summary and identical
content keeps the **first** block with type `thinking` (no priority
order), and (b) two blocks agreeing on the first 500 characters of
content but differing before character 600 do **not** collide — the
signature prefix is 600 characters, not 500. -/
theorem C2_counterexample :
    let md : Metadata :=
      ⟨"claude", "2025-01-01", "all", 0, 0, 0, false, [], ⟨[], [], [], [], 0⟩,
       0, 0, 0, 0, [], 0⟩
    let msg : Message := ⟨"m1", "user", "hi", "", "", 0, 0, [], ReferenceSet.empty⟩
    let bThink : Block := ⟨"x", "thinking", "Searching", "same content", "", "", 0, 0, none⟩
    let bTool : Block := ⟨"y", "tool_call", "Searching", "same content", "", "", 0, 0, none⟩
    let dPrio : ExportData := ⟨md, [msg], [bThink, bTool], none⟩
    let long1 : String := ⟨List.replicate 550 'a'⟩
    let long2 : String := ⟨List.replicate 500 'a' ++ List.replicate 50 'b'⟩
    let bLong1 : Block := ⟨"p", "thinking", "Sum", long1, "", "", 0, 0, none⟩
    let bLong2 : Block := ⟨"q", "tool_call", "Sum", long2, "", "", 0, 0, none⟩
    let dShared500 : ExportData := ⟨md, [msg], [bLong1, bLong2], none⟩
    ((normalizePass dPrio).thinkingBlocks.map (fun b => b.ty) = ["thinking"])
    ∧ strTake 500 long1 = strTake 500 long2
    ∧ (normalizePass dShared500).thinkingBlocks.length = 2 := by
  set_option maxRecDepth 4000 in
  refine ⟨by decide, by decide, by decide⟩

/-- C2, amended: the normalization pass dedups on
`trim(summary) + '|' + trim(content)[:600]`, and on a collision the
**first** occurrence is kept with its own type and fields (no priority
merge).  The `tool_call`/`prompt_chain` > `thinking` > `trace` priority
rule lives in the ChatGPT extractor's extraction-time
`dedupeThinkingBlocks`, which keys on the first 500 characters of the
normalized content alone and does make the `tool_call` block win over a
`thinking` block with the same signature. -/
theorem C2_dedup_signature_and_priority (b1 b2 : Block)
    (hsig : normBlockSignature b1 = normBlockSignature b2)
    (hne1 : ¬(jsTrim b1.content = "" ∧ jsTrim b1.summary = ""))
    (hne2 : ¬(jsTrim b2.content = "" ∧ jsTrim b2.summary = ""))
    (idx : Nat) (bA bB : Block)
    (hA : jsTrim (if bA.ty ≠ "" then bA.ty else "thinking") = "thinking")
    (hB : jsTrim (if bB.ty ≠ "" then bB.ty else "thinking") = "tool_call")
    (hsig500 : strTake 500 (normalizedTraceContent bA)
        = strTake 500 (normalizedTraceContent bB))
    (hncA : strTake 500 (normalizedTraceContent bA) ≠ "") :
    normTopBlocks idx [] [b1, b2] = [rebuildBlock idx b1]
    ∧ dedupeThinkingBlocks [bA, bB]
        = [traceMerged bB "tool_call" (normalizedTraceContent bB)] := by
  constructor
  · simp only [normTopBlocks, normBlockSignature] at *
    rw [if_neg hne1, if_neg (by simp), if_neg hne2, if_pos (by simp [hsig])]
  · have hncB : strTake 500 (normalizedTraceContent bB) ≠ "" := by
      rw [← hsig500]; exact hncA
    simp only [dedupeThinkingBlocks, dtbGo, hA, hB]
    rw [if_neg (by simpa using hncA)]
    simp only [List.lookup, List.lookup_nil]
    rw [if_neg (by simpa using hncB)]
    rw [hsig500]
    simp [traceMerged, tracePriority]

/-- Witness for C2: concrete colliding block pairs for both dedup
paths. -/
theorem C2_witness :
    let b1 : Block := ⟨"x", "thinking", "Searching", "same content", "", "", 0, 0, none⟩
    let b2 : Block := ⟨"y", "tool_call", "Searching", "same content", "", "", 0, 0, none⟩
    let bA : Block := ⟨"a", "thinking", "", "deep thought about X", "", "", 0, 0, none⟩
    let bB : Block := ⟨"b", "tool_call", "", "deep thought about X", "", "", 0, 0, none⟩
    normTopBlocks 0 [] [b1, b2] = [rebuildBlock 0 b1]
    ∧ dedupeThinkingBlocks [bA, bB]
        = [traceMerged bB "tool_call" (normalizedTraceContent bB)] := by
  intro b1 b2 bA bB
  exact C2_dedup_signature_and_priority b1 b2 (by decide) (by decide) (by decide)
    0 bA bB (by decide) (by decide) (by decide) (by decide)

/- ### C1: idempotence of the normalization pass -/

theorem rebuildBlock_content_eq (i : Nat) (b : Block) (h : jsTrim b.content ≠ "") :
    (rebuildBlock i b).content = jsTrim b.content := by
  simp only [rebuildBlock]
  rw [if_pos h]

theorem normBlockSignature_rebuild (i : Nat) (b : Block) (h : jsTrim b.content ≠ "") :
    normBlockSignature (rebuildBlock i b) = normBlockSignature b := by
  simp only [normBlockSignature, rebuildBlock]
  rw [if_pos h, jsTrim_idem, jsTrim_idem]

theorem rebuildBlock_id_ne (i : Nat) (b : Block) : (rebuildBlock i b).id ≠ "" := by
  simp only [rebuildBlock]
  by_cases h : b.id ≠ ""
  · rw [if_pos h]; exact h
  · rw [if_neg h]
    exact strAppend_ne_empty_left "thinking_" (toString i) (by decide)

theorem rebuildBlock_ty_ne (i : Nat) (b : Block) : (rebuildBlock i b).ty ≠ "" := by
  simp only [rebuildBlock]
  by_cases h : b.ty ≠ ""
  · rw [if_pos h]; exact h
  · rw [if_neg h]; decide

theorem rebuildBlock_summary_eq (i : Nat) (b : Block) :
    (rebuildBlock i b).summary = jsTrim b.summary := rfl

theorem rebuildBlock_richHtml_eq (i : Nat) (b : Block) :
    (rebuildBlock i b).richHtml = "" := rfl

theorem rebuildBlock_wordCount_eq (i : Nat) (b : Block) (h : jsTrim b.content ≠ "") :
    (rebuildBlock i b).wordCount
      = if b.wordCount ≠ 0 then b.wordCount else countWordsJS (jsTrim b.content) := by
  simp only [rebuildBlock]
  rw [if_pos h]

theorem rebuildBlock_characterCount_eq (i : Nat) (b : Block) (h : jsTrim b.content ≠ "") :
    (rebuildBlock i b).characterCount
      = if b.characterCount ≠ 0 then b.characterCount else (jsTrim b.content).length := by
  simp only [rebuildBlock]
  rw [if_pos h]

/-- `rebuildBlock` fixes any block that is already in rebuilt shape. -/
theorem rebuildBlock_fixed (j : Nat) (nb : Block)
    (hct : jsTrim nb.content = nb.content) (hcne : nb.content ≠ "")
    (hst : jsTrim nb.summary = nb.summary)
    (hid : nb.id ≠ "") (hty : nb.ty ≠ "") (hrh : nb.richHtml = "")
    (hwc : nb.wordCount = 0 → countWordsJS nb.content = 0)
    (hcc : nb.characterCount = 0 → nb.content.length = 0) :
    rebuildBlock j nb = nb := by
  have hcne' : jsTrim nb.content ≠ "" := by rw [hct]; exact hcne
  cases nb with
  | mk bid bty bsummary bcontent bhtml brichHtml bwordCount bcharacterCount bstructuredData =>
    simp only at hct hcne hst hid hty hrh hwc hcc hcne'
    simp only [rebuildBlock, hct, hst]
    rw [if_pos hcne]
    simp only [Block.mk.injEq]
    refine ⟨if_pos hid, if_pos hty, by trivial, by trivial, by trivial,
      by simp [hrh], ?_, ?_, by trivial⟩
    · by_cases hw : bwordCount = 0
      · rw [if_neg (by simp [hw]), hwc hw, hw]
      · rw [if_pos hw]
    · by_cases hc : bcharacterCount = 0
      · rw [if_neg (by simp [hc]), hcc hc, hc]
      · rw [if_pos hc]

theorem rebuildBlock_idem (i j : Nat) (b : Block) (h : jsTrim b.content ≠ "") :
    rebuildBlock j (rebuildBlock i b) = rebuildBlock i b := by
  refine rebuildBlock_fixed j _ ?_ ?_ ?_ (rebuildBlock_id_ne i b) (rebuildBlock_ty_ne i b)
    (rebuildBlock_richHtml_eq i b) ?_ ?_
  · rw [rebuildBlock_content_eq i b h, jsTrim_idem]
  · rw [rebuildBlock_content_eq i b h]; exact h
  · rw [rebuildBlock_summary_eq, jsTrim_idem]
  · intro hz
    rw [rebuildBlock_wordCount_eq i b h] at hz
    rw [rebuildBlock_content_eq i b h]
    by_cases hw : b.wordCount ≠ 0
    · rw [if_pos hw] at hz; exact absurd hz hw
    · rwa [if_neg hw] at hz
  · intro hz
    rw [rebuildBlock_characterCount_eq i b h] at hz
    rw [rebuildBlock_content_eq i b h]
    by_cases hc : b.characterCount ≠ 0
    · rw [if_pos hc] at hz; exact absurd hz hc
    · rwa [if_neg hc] at hz

theorem dedupMessageBlocks_subset (seen : List String) (bs : List Block) :
    ∀ b ∈ dedupMessageBlocks seen bs, b ∈ bs := by
  induction bs generalizing seen with
  | nil => intro b hb; cases hb
  | cons x xs ih =>
    intro b hb
    simp only [dedupMessageBlocks] at hb
    split at hb
    · exact List.mem_cons_of_mem _ (ih seen b hb)
    · rcases List.mem_cons.mp hb with rfl | hb
      · exact List.mem_cons_self _ _
      · exact List.mem_cons_of_mem _ (ih _ b hb)

theorem dedupMessageBlocks_idem (seen : List String) (bs : List Block) :
    dedupMessageBlocks seen (dedupMessageBlocks seen bs) = dedupMessageBlocks seen bs := by
  induction bs generalizing seen with
  | nil => rfl
  | cons x xs ih =>
    simp only [dedupMessageBlocks]
    by_cases h : normBlockSignature x ∈ seen
    · rw [if_pos h]
      exact ih seen
    · rw [if_neg h]
      simp only [dedupMessageBlocks]
      rw [if_neg h]
      exact congrArg (fun t => x :: t) (ih _)

/-- A message produced by `normMessage` is a fixed point of
`normMessage` at any index. -/
theorem normMessage_stable (j k : Nat) (m m' : Message)
    (h : normMessage j m = some m') : normMessage k m' = some m' := by
  simp only [normMessage] at h
  split at h
  · cases h
  · rename_i hcond
    injection h with h
    subst h
    have hfix : (dedupMessageBlocks []
          (m.thinkingBlocks.filter (fun b => jsTrim b.content ≠ ""))).filter
            (fun b => jsTrim b.content ≠ "")
        = dedupMessageBlocks [] (m.thinkingBlocks.filter (fun b => jsTrim b.content ≠ "")) := by
      refine List.filter_eq_self.mpr (fun b hb => ?_)
      have := dedupMessageBlocks_subset [] _ b hb
      exact (List.mem_filter.mp this).2
    have hidne : (if m.id ≠ "" then m.id else "msg_" ++ toString j) ≠ "" := by
      by_cases hi : m.id ≠ ""
      · rw [if_pos hi]; exact hi
      · rw [if_neg hi]
        exact strAppend_ne_empty_left "msg_" (toString j) (by decide)
    simp only [normMessage, normalizeReferenceSet]
    simp only [hfix, dedupMessageBlocks_idem, jsTrim_idem]
    rw [if_neg hcond]
    cases m with
    | mk mid mauthor mcontent mhtml mtimestamp mwordCount mcharacterCount mblocks mrefs =>
      simp only at hcond hidne ⊢
      simp only [Option.some.injEq, Message.mk.injEq]
      refine ⟨if_pos hidne, by trivial, by trivial, by trivial, by trivial, ?_, ?_,
        by trivial, by trivial⟩
      · by_cases hw : mwordCount ≠ 0
        · rw [if_pos hw, if_pos hw]
        · rw [if_neg hw]
          by_cases hcw : countWordsJS (jsTrim mcontent) ≠ 0
          · rw [if_pos hcw]
          · rw [if_neg hcw]
      · by_cases hc : mcharacterCount ≠ 0
        · rw [if_pos hc, if_pos hc]
        · rw [if_neg hc]
          by_cases hcl : (jsTrim mcontent).length ≠ 0
          · rw [if_pos hcl]
          · rw [if_neg hcl]

theorem normMessagesGo_mem (idx : Nat) (ms : List Message) :
    ∀ m' ∈ normMessagesGo idx ms, ∃ j m, m ∈ ms ∧ normMessage j m = some m' := by
  induction ms generalizing idx with
  | nil => intro m' hm'; cases hm'
  | cons m ms ih =>
    intro m' hm'
    simp only [normMessagesGo] at hm'
    cases hnm : normMessage idx m with
    | none =>
      rw [hnm] at hm'
      obtain ⟨j, x, hx, hj⟩ := ih (idx + 1) m' hm'
      exact ⟨j, x, List.mem_cons_of_mem _ hx, hj⟩
    | some v =>
      rw [hnm] at hm'
      rcases List.mem_cons.mp hm' with rfl | hm'
      · exact ⟨idx, m, List.mem_cons_self _ _, hnm⟩
      · obtain ⟨j, x, hx, hj⟩ := ih (idx + 1) m' hm'
        exact ⟨j, x, List.mem_cons_of_mem _ hx, hj⟩

theorem normMessagesGo_stable (ms : List Message) (idx : Nat)
    (h : ∀ m' ∈ ms, ∀ k, normMessage k m' = some m') :
    normMessagesGo idx ms = ms := by
  induction ms generalizing idx with
  | nil => rfl
  | cons m ms ih =>
    simp only [normMessagesGo]
    rw [h m (List.mem_cons_self _ _) idx]
    exact congrArg (fun t => m :: t) (ih (idx + 1) (fun x hx => h x (List.mem_cons_of_mem _ hx)))

theorem normMessagesGo_idem (ms : List Message) (idx idx' : Nat) :
    normMessagesGo idx' (normMessagesGo idx ms) = normMessagesGo idx ms := by
  refine normMessagesGo_stable _ idx' (fun m' hm' k => ?_)
  obtain ⟨j, m, _, hj⟩ := normMessagesGo_mem idx ms m' hm'
  exact normMessage_stable j k m m' hj

/-- `normMessage` inverts to explicit fields (used to relate a
normalized message's blocks back to its source message). -/
theorem normMessage_some_blocks (j : Nat) (m m' : Message)
    (h : normMessage j m = some m') :
    m'.thinkingBlocks
      = dedupMessageBlocks [] (m.thinkingBlocks.filter (fun b => jsTrim b.content ≠ "")) := by
  simp only [normMessage] at h
  split at h
  · cases h
  · injection h with h
    subst h
    rfl

theorem normTopBlocks_spec (bs : List Block) (idx : Nat) (seen : List String)
    (hbs : ∀ b ∈ bs, jsTrim b.content ≠ "") :
    (∀ nb ∈ normTopBlocks idx seen bs,
        (∃ i b, jsTrim b.content ≠ "" ∧ nb = rebuildBlock i b)
        ∧ normBlockSignature nb ∉ seen)
    ∧ ((normTopBlocks idx seen bs).map normBlockSignature).Nodup
    ∧ (∀ b ∈ bs, normBlockSignature b ∈ seen
        ∨ normBlockSignature b ∈ (normTopBlocks idx seen bs).map normBlockSignature) := by
  induction bs generalizing idx seen with
  | nil =>
    refine ⟨fun nb hnb => absurd hnb (by simp [normTopBlocks]), by simp [normTopBlocks], ?_⟩
    intro b hb; cases hb
  | cons b bs ih =>
    have hbc : jsTrim b.content ≠ "" := hbs b (List.mem_cons_self _ _)
    have hbs' : ∀ x ∈ bs, jsTrim x.content ≠ "" :=
      fun x hx => hbs x (List.mem_cons_of_mem _ hx)
    have hnotblank : ¬(jsTrim b.content = "" ∧ jsTrim b.summary = "") := by
      intro hcontra; exact hbc hcontra.1
    by_cases hmem : normBlockSignature b ∈ seen
    · have hstep : normTopBlocks idx seen (b :: bs) = normTopBlocks (idx + 1) seen bs := by
        simp only [normTopBlocks]
        rw [if_neg hnotblank, if_pos hmem]
      obtain ⟨h1, h2, h3⟩ := ih (idx + 1) seen hbs'
      rw [hstep]
      refine ⟨h1, h2, ?_⟩
      intro x hx
      rcases List.mem_cons.mp hx with rfl | hx
      · exact Or.inl hmem
      · exact h3 x hx
    · have hstep : normTopBlocks idx seen (b :: bs)
          = rebuildBlock idx b :: normTopBlocks (idx + 1) (normBlockSignature b :: seen) bs := by
        simp only [normTopBlocks]
        rw [if_neg hnotblank, if_neg hmem]
      obtain ⟨h1, h2, h3⟩ := ih (idx + 1) (normBlockSignature b :: seen) hbs'
      rw [hstep]
      have hsigr := normBlockSignature_rebuild idx b hbc
      refine ⟨?_, ?_, ?_⟩
      · intro nb hnb
        rcases List.mem_cons.mp hnb with rfl | hnb
        · exact ⟨⟨idx, b, hbc, rfl⟩, by rw [hsigr]; exact hmem⟩
        · obtain ⟨he, hs⟩ := h1 nb hnb
          exact ⟨he, fun hcontra => hs (List.mem_cons_of_mem _ hcontra)⟩
      · rw [List.map_cons, List.nodup_cons]
        refine ⟨?_, h2⟩
        intro hcontra
        rw [hsigr] at hcontra
        obtain ⟨nb, hnb, hnbeq⟩ := List.mem_map.mp hcontra
        have := (h1 nb hnb).2
        rw [hnbeq] at this
        exact this (List.mem_cons_self _ _)
      · intro x hx
        rcases List.mem_cons.mp hx with rfl | hx
        · refine Or.inr ?_
          rw [List.map_cons, hsigr]
          exact List.mem_cons_self _ _
        · rcases h3 x hx with hin | hin
          · rcases List.mem_cons.mp hin with heq | hin
            · refine Or.inr ?_
              rw [List.map_cons, hsigr, heq]
              exact List.mem_cons_self _ _
            · exact Or.inl hin
          · exact Or.inr (by rw [List.map_cons]; exact List.mem_cons_of_mem _ hin)

theorem normTopBlocks_cons (idx : Nat) (seen : List String) (b : Block) (bs : List Block) :
    normTopBlocks idx seen (b :: bs)
      = if jsTrim b.content = "" ∧ jsTrim b.summary = "" then normTopBlocks (idx + 1) seen bs
        else if normBlockSignature b ∈ seen then normTopBlocks (idx + 1) seen bs
        else rebuildBlock idx b :: normTopBlocks (idx + 1) (normBlockSignature b :: seen) bs := rfl

theorem normTopBlocks_skip_all (rest : List Block) (idx : Nat) (seen : List String)
    (h : ∀ r ∈ rest, ¬(jsTrim r.content = "" ∧ jsTrim r.summary = "")
        → normBlockSignature r ∈ seen) :
    normTopBlocks idx seen rest = [] := by
  induction rest generalizing idx with
  | nil => rfl
  | cons r rest ih =>
    rw [normTopBlocks_cons]
    by_cases hblank : jsTrim r.content = "" ∧ jsTrim r.summary = ""
    · rw [if_pos hblank]
      exact ih (idx + 1) (fun x hx => h x (List.mem_cons_of_mem _ hx))
    · rw [if_neg hblank, if_pos (h r (List.mem_cons_self _ _) hblank)]
      exact ih (idx + 1) (fun x hx => h x (List.mem_cons_of_mem _ hx))

theorem normTopBlocks_stable (outs : List Block) (rest : List Block) (idx : Nat)
    (seen : List String)
    (houts : ∀ nb ∈ outs,
        (∃ i b, jsTrim b.content ≠ "" ∧ nb = rebuildBlock i b)
        ∧ normBlockSignature nb ∉ seen)
    (hnodup : (outs.map normBlockSignature).Nodup)
    (hrest : ∀ r ∈ rest, ¬(jsTrim r.content = "" ∧ jsTrim r.summary = "")
        → (normBlockSignature r ∈ seen
            ∨ normBlockSignature r ∈ outs.map normBlockSignature)) :
    normTopBlocks idx seen (outs ++ rest) = outs := by
  induction outs generalizing idx seen with
  | nil =>
    refine normTopBlocks_skip_all rest idx seen (fun r hr hnb => ?_)
    rcases hrest r hr hnb with hin | hin
    · exact hin
    · simp at hin
  | cons nb outs ih =>
    obtain ⟨⟨i, b, hbc, rfl⟩, hnotseen⟩ := houts _ (List.mem_cons_self _ _)
    have hcontent : jsTrim (rebuildBlock i b).content ≠ "" := by
      rw [rebuildBlock_content_eq i b hbc, jsTrim_idem]
      exact hbc
    have hnotblank : ¬(jsTrim (rebuildBlock i b).content = ""
        ∧ jsTrim (rebuildBlock i b).summary = "") := fun hc => hcontent hc.1
    rw [List.cons_append, normTopBlocks_cons, if_neg hnotblank, if_neg hnotseen,
      rebuildBlock_idem i idx b hbc]
    rw [List.map_cons] at hnodup
    have hhead := (List.nodup_cons.mp hnodup).1
    have hnodup' := (List.nodup_cons.mp hnodup).2
    refine congrArg (fun t => rebuildBlock i b :: t) (ih (idx + 1) _ ?_ hnodup' ?_)
    · intro x hx
      obtain ⟨he, hs⟩ := houts x (List.mem_cons_of_mem _ hx)
      refine ⟨he, ?_⟩
      intro hcontra
      rcases List.mem_cons.mp hcontra with heq | hin
      · exact hhead (heq ▸ List.mem_map_of_mem normBlockSignature hx)
      · exact hs hin
    · intro r hr hnb
      rcases hrest r hr hnb with hin | hin
      · exact Or.inl (List.mem_cons_of_mem _ hin)
      · rw [List.map_cons] at hin
        rcases List.mem_cons.mp hin with heq | hin2
        · exact Or.inl (by rw [heq]; exact List.mem_cons_self _ _)
        · exact Or.inr hin2

theorem normalizePass_def (d : ExportData) :
    normalizePass d =
      { metadata :=
          { d.metadata with
            messageCount := (normMessagesGo 0 d.messages).length,
            thinkingBlockCount := (normTopBlocks 0 []
              (d.thinkingBlocks ++ d.messages.flatMap (fun m => m.thinkingBlocks))).length,
            hasThinkingBlocks := decide (0 < (normTopBlocks 0 []
              (d.thinkingBlocks ++ d.messages.flatMap (fun m => m.thinkingBlocks))).length),
            blockTypeBreakdown :=
              if d.metadata.blockTypeBreakdown = [] then
                computeBlockTypeBreakdown (normTopBlocks 0 []
                  (d.thinkingBlocks ++ d.messages.flatMap (fun m => m.thinkingBlocks)))
              else d.metadata.blockTypeBreakdown,
            referenceIndex := computeReferenceIndexFromMessages (normMessagesGo 0 d.messages),
            referenceCount :=
              (computeReferenceIndexFromMessages (normMessagesGo 0 d.messages)).total,
            linkCount :=
              (computeReferenceIndexFromMessages (normMessagesGo 0 d.messages)).links.length,
            attachmentCount :=
              (computeReferenceIndexFromMessages (normMessagesGo 0 d.messages)).attachments.length,
            citationCount :=
              (computeReferenceIndexFromMessages (normMessagesGo 0 d.messages)).citations.length,
            uploadedDocuments := computeUploadedDocumentsFromMessages (normMessagesGo 0 d.messages),
            uploadedDocumentCount :=
              (computeUploadedDocumentsFromMessages (normMessagesGo 0 d.messages)).length },
        messages := normMessagesGo 0 d.messages,
        thinkingBlocks := normTopBlocks 0 []
          (d.thinkingBlocks ++ d.messages.flatMap (fun m => m.thinkingBlocks)),
        rawHtml := d.rawHtml } := rfl

theorem btb_stable (x y : List (String × Nat)) :
    (if (if x = [] then y else x) = [] then y else (if x = [] then y else x))
      = (if x = [] then y else x) := by
  by_cases hx : x = []
  · rw [if_pos hx]
    by_cases hy : y = []
    · rw [if_pos hy, hy]
    · rw [if_neg hy]
  · rw [if_neg hx, if_neg hx]

/-- C1 counterexample: normalization is not idempotent on a document
containing a block with blank content and non-blank summary — the first
pass promotes the summary into the content, which changes the dedup
signature and lets a second pass merge the block with another one. -/
theorem C1_counterexample :
    let md : Metadata :=
      ⟨"claude", "2025-01-01", "all", 0, 0, 0, false, [], ⟨[], [], [], [], 0⟩,
       0, 0, 0, 0, [], 0⟩
    let bFull : Block := ⟨"a", "thinking", "S", "S", "", "", 0, 0, none⟩
    let bBlank : Block := ⟨"b", "thinking", "S", "", "", "", 0, 0, none⟩
    let d1 : ExportData :=
      ⟨md, [⟨"m1", "user", "hi", "", "", 0, 0, [bFull, bBlank], ReferenceSet.empty⟩], [], none⟩
    normalizePass (normalizePass d1) ≠ normalizePass d1
    ∧ (normalizePass d1).thinkingBlocks.length = 2
    ∧ (normalizePass (normalizePass d1)).thinkingBlocks.length = 1 := by
  refine ⟨by decide, by decide, by decide⟩

/-- C1, amended: the normalization pass is idempotent on every document
whose thinking blocks (top-level and per-message) all have non-blank
trimmed content — which holds for extractor-produced documents, whose
blocks always carry non-empty content.  In general idempotence fails
only through the blank-content/summary-promotion path exhibited by the
counterexample. -/
theorem C1_normalize_idempotent (d : ExportData)
    (hd : ∀ b ∈ d.thinkingBlocks ++ d.messages.flatMap (fun m => m.thinkingBlocks),
        jsTrim b.content ≠ "") :
    normalizePass (normalizePass d) = normalizePass d := by
  obtain ⟨hspec1, hspec2, hspec3⟩ :=
    normTopBlocks_spec (d.thinkingBlocks ++ d.messages.flatMap (fun m => m.thinkingBlocks))
      0 [] hd
  have hmsgstable : normMessagesGo 0 (normMessagesGo 0 d.messages)
      = normMessagesGo 0 d.messages := normMessagesGo_idem d.messages 0 0
  have hrest : ∀ r ∈ (normMessagesGo 0 d.messages).flatMap (fun m => m.thinkingBlocks),
      ¬(jsTrim r.content = "" ∧ jsTrim r.summary = "")
      → (normBlockSignature r ∈ ([] : List String)
          ∨ normBlockSignature r ∈
            (normTopBlocks 0 []
              (d.thinkingBlocks ++ d.messages.flatMap (fun m => m.thinkingBlocks))).map
              normBlockSignature) := by
    intro r hr _
    right
    obtain ⟨m', hm', hrm⟩ := List.mem_flatMap.mp hr
    obtain ⟨j, m, hm, hj⟩ := normMessagesGo_mem 0 d.messages m' hm'
    have hblocks := normMessage_some_blocks j m m' hj
    rw [hblocks] at hrm
    have hrf := dedupMessageBlocks_subset [] _ r hrm
    have hrsrc : r ∈ m.thinkingBlocks := (List.mem_filter.mp hrf).1
    have hragg : r ∈ d.thinkingBlocks ++ d.messages.flatMap (fun m => m.thinkingBlocks) :=
      List.mem_append_right _ (List.mem_flatMap.mpr ⟨m, hm, hrsrc⟩)
    rcases hspec3 r hragg with hin | hin
    · cases hin
    · exact hin
  have htopstable : normTopBlocks 0 []
      (normTopBlocks 0 [] (d.thinkingBlocks ++ d.messages.flatMap (fun m => m.thinkingBlocks))
        ++ (normMessagesGo 0 d.messages).flatMap (fun m => m.thinkingBlocks))
      = normTopBlocks 0 []
          (d.thinkingBlocks ++ d.messages.flatMap (fun m => m.thinkingBlocks)) := by
    refine normTopBlocks_stable _ _ 0 [] ?_ hspec2 hrest
    intro nb hnb
    obtain ⟨he, _⟩ := hspec1 nb hnb
    exact ⟨he, by simp⟩
  rw [normalizePass_def d, normalizePass_def]
  dsimp only
  rw [hmsgstable, htopstable, btb_stable]

/-- Witness for C1 at a concrete document with non-blank block
contents. -/
theorem C1_witness :
    let md : Metadata :=
      ⟨"claude", "2025-01-01", "all", 0, 0, 0, false, [], ⟨[], [], [], [], 0⟩,
       0, 0, 0, 0, [], 0⟩
    let b : Block := ⟨"t1", "thinking", "Sum", "Deep thought", "", "", 0, 0, none⟩
    let dgood : ExportData :=
      ⟨md, [⟨"m1", "user", "hello", "", "", 0, 0, [b], ReferenceSet.empty⟩], [b], none⟩
    normalizePass (normalizePass dgood) = normalizePass dgood := by
  intro md b dgood
  exact C1_normalize_idempotent dgood (by decide)

/- ### C3: redaction-marker lemmas -/

theorem infix_append_of_left (l a b : List α) (h : l <:+: a) : l <:+: a ++ b := by
  obtain ⟨u, v, huv⟩ := h
  exact ⟨u, v ++ b, by rw [← huv]; simp⟩

theorem infix_append_of_right (l a b : List α) (h : l <:+: b) : l <:+: a ++ b := by
  obtain ⟨u, v, huv⟩ := h
  exact ⟨a ++ u, v, by rw [← huv]; simp⟩

theorem infix_of_cons (l : List α) (c : α) (xs : List α) (h : l <:+: xs) :
    l <:+: c :: xs := by
  obtain ⟨u, v, huv⟩ := h
  exact ⟨c :: u, v, by rw [← huv]; simp⟩

theorem infix_self (l : List α) : l <:+: l := ⟨[], [], by simp⟩

theorem replaceAllFrom_succ (p : Pat) (repl : List Char → List Char) (f : Nat)
    (prev : Option Char) (s : List Char) :
    replaceAllFrom p repl (f + 1) prev s
      = match (matchLens p prev s).head? with
        | some k =>
          if k = 0 then
            repl [] ++
              (match s with
               | [] => []
               | c :: rest => c :: replaceAllFrom p repl f (some c) rest)
          else repl (s.take k) ++ replaceAllFrom p repl f (prevAfter prev s k) (s.drop k)
        | none =>
          match s with
          | [] => []
          | c :: rest => c :: replaceAllFrom p repl f (some c) rest := rfl

theorem findFirstFrom_zero (p : Pat) (prev : Option Char) (s : List Char) :
    findFirstFrom p 0 prev s
      = ((matchLens p prev s).head?).map (fun k => (0, k)) := rfl

theorem findFirstFrom_succ (p : Pat) (f : Nat) (prev : Option Char) (s : List Char) :
    findFirstFrom p (f + 1) prev s
      = match (matchLens p prev s).head? with
        | some k => some (0, k)
        | none =>
          match s with
          | [] => none
          | c :: rest => (findFirstFrom p f (some c) rest).map (fun ik => (ik.1 + 1, ik.2)) := rfl

/-- A global replace either leaves the string unchanged or its output
contains the replacement marker. -/
theorem replaceAllFrom_eq_or_infixOf (p : Pat) (repl : List Char → List Char)
    (marker : List Char) (hrepl : ∀ m, marker <:+: repl m) :
    ∀ (fuel : Nat) (prev : Option Char) (s : List Char),
      replaceAllFrom p repl fuel prev s = s
        ∨ marker <:+: replaceAllFrom p repl fuel prev s := by
  intro fuel
  induction fuel with
  | zero => exact fun prev s => Or.inl rfl
  | succ f ih =>
    intro prev s
    rw [replaceAllFrom_succ]
    cases hm : (matchLens p prev s).head? with
    | some k =>
      dsimp only
      right
      by_cases hk : k = 0
      · rw [if_pos hk]
        exact infix_append_of_left _ _ _ (hrepl [])
      · rw [if_neg hk]
        exact infix_append_of_left _ _ _ (hrepl _)
    | none =>
      dsimp only
      cases s with
      | nil => exact Or.inl rfl
      | cons c rest =>
        dsimp only
        rcases ih (some c) rest with he | hinf
        · exact Or.inl (by rw [he])
        · exact Or.inr (infix_of_cons _ _ _ hinf)

/-- When the pattern matches somewhere, the global replace inserts the
replacement marker. -/
theorem replaceAllFrom_infix_of_match (p : Pat) (repl : List Char → List Char)
    (marker : List Char) (hrepl : ∀ m, marker <:+: repl m) :
    ∀ (s : List Char) (fuel fuel2 : Nat) (prev : Option Char),
      s.length < fuel →
      findFirstFrom p fuel2 prev s ≠ none →
      marker <:+: replaceAllFrom p repl fuel prev s := by
  intro s
  induction s with
  | nil =>
    intro fuel fuel2 prev hfuel hfind
    cases fuel with
    | zero => omega
    | succ f =>
      rw [replaceAllFrom_succ]
      cases hm : (matchLens p prev []).head? with
      | none =>
        exfalso
        apply hfind
        cases fuel2 with
        | zero => rw [findFirstFrom_zero, hm]; rfl
        | succ f2 => rw [findFirstFrom_succ, hm]
      | some k =>
        dsimp only
        by_cases hk : k = 0
        · rw [if_pos hk]
          exact infix_append_of_left _ _ _ (hrepl [])
        · rw [if_neg hk]
          exact infix_append_of_left _ _ _ (hrepl _)
  | cons c rest ih =>
    intro fuel fuel2 prev hfuel hfind
    cases fuel with
    | zero => simp at hfuel
    | succ f =>
      rw [replaceAllFrom_succ]
      cases hm : (matchLens p prev (c :: rest)).head? with
      | some k =>
        dsimp only
        by_cases hk : k = 0
        · rw [if_pos hk]
          exact infix_append_of_left _ _ _ (hrepl [])
        · rw [if_neg hk]
          exact infix_append_of_left _ _ _ (hrepl _)
      | none =>
        dsimp only
        cases fuel2 with
        | zero =>
          exfalso
          apply hfind
          rw [findFirstFrom_zero, hm]
          rfl
        | succ f2 =>
          rw [findFirstFrom_succ, hm] at hfind
          dsimp only at hfind
          have hinner : findFirstFrom p f2 (some c) rest ≠ none := by
            intro hcontra
            rw [hcontra] at hfind
            simp at hfind
          have hlen : rest.length < f := by
            simp only [List.length_cons] at hfuel
            omega
          exact infix_of_cons _ _ _ (ih f f2 (some c) hlen hinner)

theorem regexReplaceAll_marker_preserve (p : Pat) (repl : List Char → List Char)
    (marker : List Char) (hrepl : ∀ m, marker <:+: repl m) (x : String)
    (h : marker <:+: x.data) : marker <:+: (regexReplaceAll p repl x).data := by
  rcases replaceAllFrom_eq_or_infixOf p repl marker hrepl (x.data.length + 1) none x.data
    with he | hm
  · show marker <:+: replaceAllFrom p repl (x.data.length + 1) none x.data
    rw [he]
    exact h
  · exact hm

theorem regexReplaceAll_marker_of_test (p : Pat) (repl : List Char → List Char)
    (marker : List Char) (hrepl : ∀ m, marker <:+: repl m) (x : String)
    (h : regexTest p x = true) : marker <:+: (regexReplaceAll p repl x).data := by
  refine replaceAllFrom_infix_of_match p repl marker hrepl x.data (x.data.length + 1)
    (x.data.length + 1) none (by omega) ?_
  exact Option.isSome_iff_ne_none.mp h

theorem regexReplaceAll_id_or_marker (p : Pat) (repl : List Char → List Char)
    (marker : List Char) (hrepl : ∀ m, marker <:+: repl m) (x : String) :
    regexReplaceAll p repl x = x ∨ marker <:+: (regexReplaceAll p repl x).data := by
  rcases replaceAllFrom_eq_or_infixOf p repl marker hrepl (x.data.length + 1) none x.data
    with he | hm
  · left
    show String.mk (replaceAllFrom p repl (x.data.length + 1) none x.data) = x
    rw [he]
  · exact Or.inr hm

/-- If any of the email, phone, or `sk-` token patterns matches the
input, the output of `applySensitiveRedaction` contains a
`[REDACTED_` marker. -/
theorem applySensitiveRedaction_marker (s : String)
    (h : regexTest emailPat s = true ∨ regexTest phonePat s = true
        ∨ regexTest tokenShapePat s = true) :
    "[REDACTED_".data <:+: (applySensitiveRedaction s).data := by
  have hmE : ("[REDACTED_".data : List Char) <:+: "[REDACTED_EMAIL]".data :=
    (containsSeq_iff _ _).mp (by decide)
  have hmP : ("[REDACTED_".data : List Char) <:+: "[REDACTED_PHONE]".data :=
    (containsSeq_iff _ _).mp (by decide)
  have hmT : ("[REDACTED_".data : List Char) <:+: "[REDACTED_TOKEN]".data :=
    (containsSeq_iff _ _).mp (by decide)
  have hmC : ("[REDACTED_".data : List Char) <:+: "[REDACTED_CREDENTIAL]".data :=
    (containsSeq_iff _ _).mp (by decide)
  have hre : ∀ m : List Char, ("[REDACTED_".data : List Char)
      <:+: (fun (_ : List Char) => "[REDACTED_EMAIL]".data) m := fun _ => hmE
  have hrp : ∀ m : List Char, ("[REDACTED_".data : List Char)
      <:+: (fun (_ : List Char) => "[REDACTED_PHONE]".data) m := fun _ => hmP
  have hrt : ∀ m : List Char, ("[REDACTED_".data : List Char)
      <:+: (fun (_ : List Char) => "[REDACTED_TOKEN]".data) m := fun _ => hmT
  have hrc : ∀ m : List Char, ("[REDACTED_".data : List Char)
      <:+: (fun (_ : List Char) => "[REDACTED_CREDENTIAL]".data) m := fun _ => hmC
  have hrf : ∀ m : List Char, ("[REDACTED_".data : List Char)
      <:+: (fun (m : List Char) => "[REDACTED_FILE].".data ++ afterLastDot m) m :=
    fun m => infix_append_of_left _ _ _ ((containsSeq_iff _ _).mp (by decide))
  by_cases hs : s = ""
  · subst hs
    rcases h with h | h | h
    · exact absurd h (by decide)
    · exact absurd h (by decide)
    · exact absurd h (by decide)
  · unfold applySensitiveRedaction
    rw [if_neg hs]
    dsimp only
    rcases h with h | h | h
    · refine regexReplaceAll_marker_preserve _ _ _ hrf _
        (regexReplaceAll_marker_preserve _ _ _ hrc _
          (regexReplaceAll_marker_preserve _ _ _ hrt _
            (regexReplaceAll_marker_preserve _ _ _ hrp _ ?_)))
      exact regexReplaceAll_marker_of_test _ _ _ hre _ h
    · rcases regexReplaceAll_id_or_marker emailPat
          (fun _ => "[REDACTED_EMAIL]".data) _ hre s with he | hm
      · rw [he]
        refine regexReplaceAll_marker_preserve _ _ _ hrf _
          (regexReplaceAll_marker_preserve _ _ _ hrc _
            (regexReplaceAll_marker_preserve _ _ _ hrt _ ?_))
        exact regexReplaceAll_marker_of_test _ _ _ hrp _ h
      · refine regexReplaceAll_marker_preserve _ _ _ hrf _
          (regexReplaceAll_marker_preserve _ _ _ hrc _
            (regexReplaceAll_marker_preserve _ _ _ hrt _
              (regexReplaceAll_marker_preserve _ _ _ hrp _ hm)))
    · rcases regexReplaceAll_id_or_marker emailPat
          (fun _ => "[REDACTED_EMAIL]".data) _ hre s with he | hm
      · rw [he]
        rcases regexReplaceAll_id_or_marker phonePat
            (fun _ => "[REDACTED_PHONE]".data) _ hrp s with he2 | hm2
        · rw [he2]
          refine regexReplaceAll_marker_preserve _ _ _ hrf _
            (regexReplaceAll_marker_preserve _ _ _ hrc _ ?_)
          exact regexReplaceAll_marker_of_test _ _ _ hrt _ h
        · refine regexReplaceAll_marker_preserve _ _ _ hrf _
            (regexReplaceAll_marker_preserve _ _ _ hrc _
              (regexReplaceAll_marker_preserve _ _ _ hrt _ hm2))
      · refine regexReplaceAll_marker_preserve _ _ _ hrf _
          (regexReplaceAll_marker_preserve _ _ _ hrc _
            (regexReplaceAll_marker_preserve _ _ _ hrt _
              (regexReplaceAll_marker_preserve _ _ _ hrp _ hm)))

theorem flatMap_id_of_safe (l : List Char)
    (h : ∀ c ∈ l, jEscapeChar c = [c]) : l.flatMap jEscapeChar = l := by
  induction l with
  | nil => rfl
  | cons c cs ih =>
    rw [List.flatMap_cons, h c (List.mem_cons_self c cs),
      ih (fun x hx => h x (List.mem_cons_of_mem c hx))]
    rfl

theorem jEscape_infixOf (sub : List Char) (s : String)
    (hsafe : ∀ c ∈ sub, jEscapeChar c = [c]) (h : sub <:+: s.data) :
    sub <:+: jEscape s := by
  obtain ⟨a, b, hab⟩ := h
  refine ⟨a.flatMap jEscapeChar, b.flatMap jEscapeChar, ?_⟩
  show a.flatMap jEscapeChar ++ sub ++ b.flatMap jEscapeChar = s.data.flatMap jEscapeChar
  rw [← hab, List.flatMap_append, List.flatMap_append, flatMap_id_of_safe sub hsafe]

theorem jStr_infixOf (sub : List Char) (s : String)
    (hsafe : ∀ c ∈ sub, jEscapeChar c = [c]) (h : sub <:+: s.data) :
    sub <:+: jStr s :=
  infix_of_cons _ _ _ (infix_append_of_left _ _ _ (jEscape_infixOf sub s hsafe h))

theorem joinSep_infixOf (sep sub x : List Char) (xs : List (List Char))
    (hx : x ∈ xs) (h : sub <:+: x) : sub <:+: joinSep sep xs := by
  induction xs with
  | nil => cases hx
  | cons y ys ih =>
    cases ys with
    | nil =>
      rcases List.mem_cons.mp hx with rfl | hx2
      · exact h
      · cases hx2
    | cons z zs =>
      rcases List.mem_cons.mp hx with rfl | hx2
      · exact infix_append_of_left _ _ _ h
      · exact infix_append_of_right _ _ _ (infix_append_of_right _ _ _ (ih hx2))

theorem jArr_infixOf (ind : Nat) (items : List (List Char)) (x sub : List Char)
    (hx : x ∈ items) (h : sub <:+: x) : sub <:+: jArr ind items := by
  cases items with
  | nil => cases hx
  | cons y ys =>
    show sub <:+: ('[' :: '\n' ::
      (joinSep (",\n".data) ((y :: ys).map (fun it => jIndent (ind + 2) ++ it))
        ++ ('\n' :: (jIndent ind ++ "]".data))))
    refine infix_of_cons _ _ _ (infix_of_cons _ _ _ (infix_append_of_left _ _ _ ?_))
    refine joinSep_infixOf _ _ (jIndent (ind + 2) ++ x) _
      (List.mem_map.mpr ⟨x, hx, rfl⟩) ?_
    exact infix_append_of_right _ _ _ h

theorem jObj_infixOf (ind : Nat) (kvs : List (String × List Char))
    (kv : String × List Char) (sub : List Char)
    (hkv : kv ∈ kvs) (h : sub <:+: kv.2) : sub <:+: jObj ind kvs := by
  cases kvs with
  | nil => cases hkv
  | cons y ys =>
    show sub <:+: ('{' :: '\n' ::
      (joinSep (",\n".data)
        ((y :: ys).map (fun kv => jIndent (ind + 2) ++ (jStr kv.1 ++ (": ".data ++ kv.2))))
        ++ ('\n' :: (jIndent ind ++ "\x7d".data))))
    refine infix_of_cons _ _ _ (infix_of_cons _ _ _ (infix_append_of_left _ _ _ ?_))
    refine joinSep_infixOf _ _ (jIndent (ind + 2) ++ (jStr kv.1 ++ (": ".data ++ kv.2))) _
      (List.mem_map.mpr ⟨kv, hkv, rfl⟩) ?_
    exact infix_append_of_right _ _ _
      (infix_append_of_right _ _ _ (infix_append_of_right _ _ _ h))

theorem messageJson_content_infixOf (o : ExportOptions) (ind : Nat) (m : Message)
    (sub : List Char) (hsafe : ∀ c ∈ sub, jEscapeChar c = [c])
    (h : sub <:+: m.content.data) : sub <:+: messageJson o ind m := by
  refine jObj_infixOf ind _ ("content", jStr m.content) sub ?_
    (jStr_infixOf sub m.content hsafe h)
  simp [messageJson]

theorem resolveMessageRange_all (o : ExportOptions) (tm : Nat) (hs : o.scope = "all") :
    resolveMessageRange o tm = ⟨0, (tm : Int) - 1, "all"⟩ := by
  unfold resolveMessageRange
  rw [hs]
  rfl

theorem jsSlice_all (xs : List α) : jsSlice xs 0 ((xs.length : Int) - 1 + 1) = xs := by
  unfold jsSlice jsSliceIdx
  have h1 : ((xs.length : Int) - 1 + 1) = (xs.length : Int) := by omega
  rw [h1, if_neg (by omega), if_neg (by omega)]
  simp

theorem buildScoped_all_messages (d : ExportData) (o : ExportOptions)
    (hs : o.scope = "all") :
    (buildScopedExportData d o).messages = d.messages := by
  rw [buildScoped_messages, resolveMessageRange_all o d.messages.length hs]
  exact jsSlice_all d.messages

theorem sanitize_messages_redact (d : ExportData) (o : ExportOptions)
    (hr : o.redactSensitive = true) :
    (sanitizeExportDataForOptions d o).messages
      = d.messages.map (fun message =>
        { message with
          content := applySensitiveRedaction message.content,
          html := applySensitiveRedaction message.html,
          references := redactReferenceSet message.references,
          thinkingBlocks := message.thinkingBlocks.map redactBlock }) := by
  unfold sanitizeExportDataForOptions
  rw [hr]
  rfl

theorem generateJSON_data (d : ExportData) (o : ExportOptions) :
    (generateJSON d o).data = jObj 0
      [("metadata",
         if o.includeMetadata then metadataJson 2 (getPreparedExportData d o).metadata
         else metadataJsonSlim 2 (getPreparedExportData d o).metadata),
       ("messages", jArr 2 ((getPreparedExportData d o).messages.map (messageJson o 4))),
       ("thinkingBlocks", jArr 2
         ((if o.includeThinking then (getPreparedExportData d o).thinkingBlocks
           else []).map (blockJson 4))),
       ("rawHtml", rawHtmlJson 2
         (if o.includeHtml then (getPreparedExportData d o).rawHtml else none))] := rfl

/-- C3, counterexample: the content
`"token=sk-abcdefgh1234,a@b.co,5551234567 and 45551234567891"` contains
an email address, a phone-shaped string and an `sk-` token, yet the
redacted JSON export still contains the original phone substring
`5551234567` (inside the longer digit run `45551234567891`, where the
phone pattern's boundary requirements fail) and carries only one
`[REDACTED_` marker (the generic credential pass swallowed the whole
comma-joined span in a single `[REDACTED_CREDENTIAL]`), not the three
the claim requires. -/
theorem C3_counterexample :
    let content : String := "token=sk-abcdefgh1234,a@b.co,5551234567 and 45551234567891"
    let md : Metadata :=
      ⟨"claude", "2025-01-01", "all", 0, 0, 0, false, [], ⟨[], [], [], [], 0⟩,
       0, 0, 0, 0, [], 0⟩
    let d : ExportData :=
      ⟨md, [⟨"m1", "user", content, "", "", 1, 1, [], ReferenceSet.empty⟩], [], none⟩
    let o : ExportOptions := ⟨"all", none, none, true, true, true, true⟩
    let out : String := generateJSON d o
    (strContains content "a@b.co" = true
      ∧ strContains content "5551234567" = true
      ∧ strContains content "sk-abcdefgh1234" = true)
    ∧ strContains out "5551234567" = true
    ∧ strCount out "[REDACTED_" < 3 := by
  set_option maxRecDepth 8000 in
  refine ⟨by decide, by decide, by decide⟩

/-- C3, amended: with redaction enabled, whenever some message's
content matches the email, phone, or `sk-` token pattern, the redacted
JSON export of the whole conversation contains at least one
`[REDACTED_` marker.  Total absence of the original sensitive
substrings is **not** guaranteed (a digit run extending a phone number
survives untouched), nor is a three-marker minimum (the generic
credential pass can replace a span containing several sensitive items
with a single `[REDACTED_CREDENTIAL]`); see `C3_counterexample`. -/
theorem C3_redaction_marker_present (d : ExportData) (o : ExportOptions)
    (m : Message) (hm : m ∈ d.messages) (hscope : o.scope = "all")
    (hr : o.redactSensitive = true)
    (hmatch : regexTest emailPat m.content = true
        ∨ regexTest phonePat m.content = true
        ∨ regexTest tokenShapePat m.content = true) :
    strContains (generateJSON d o) "[REDACTED_" = true := by
  have hsafe : ∀ c ∈ ("[REDACTED_".data : List Char), jEscapeChar c = [c] := by decide
  have hred : "[REDACTED_".data <:+: (applySensitiveRedaction m.content).data :=
    applySensitiveRedaction_marker m.content hmatch
  have hmsgs : (getPreparedExportData d o).messages
      = d.messages.map (fun message =>
        { message with
          content := applySensitiveRedaction message.content,
          html := applySensitiveRedaction message.html,
          references := redactReferenceSet message.references,
          thinkingBlocks := message.thinkingBlocks.map redactBlock }) := by
    unfold getPreparedExportData
    rw [sanitize_messages_redact _ _ hr, buildScoped_all_messages d o hscope]
  show containsSeq "[REDACTED_".data (generateJSON d o).data = true
  refine (containsSeq_iff _ _).mpr ?_
  rw [generateJSON_data]
  refine jObj_infixOf 0 _
    ("messages", jArr 2 ((getPreparedExportData d o).messages.map (messageJson o 4)))
    _ (by simp) ?_
  refine jArr_infixOf 2 _
    (messageJson o 4
      { m with
        content := applySensitiveRedaction m.content,
        html := applySensitiveRedaction m.html,
        references := redactReferenceSet m.references,
        thinkingBlocks := m.thinkingBlocks.map redactBlock }) _ ?_ ?_
  · rw [hmsgs]
    exact List.mem_map.mpr ⟨_, List.mem_map.mpr ⟨m, hm, rfl⟩, rfl⟩
  · exact messageJson_content_infixOf o 4 _ _ hsafe hred

/-- Witness for C3: a one-message conversation whose content is the
email address `a@b.co`, exported with `scope = "all"` and redaction
on. -/
theorem C3_witness :
    let md : Metadata :=
      ⟨"claude", "2025-01-01", "all", 0, 0, 0, false, [], ⟨[], [], [], [], 0⟩,
       0, 0, 0, 0, [], 0⟩
    let m : Message := ⟨"m1", "user", "a@b.co", "", "", 1, 6, [], ReferenceSet.empty⟩
    let d : ExportData := ⟨md, [m], [], none⟩
    let o : ExportOptions := ⟨"all", none, none, true, true, true, true⟩
    strContains (generateJSON d o) "[REDACTED_" = true := by
  intro md m d o
  exact C3_redaction_marker_present d o m (by simp [d]) rfl rfl (Or.inl (by decide))
